import Mathlib

/-!
Verification of the slab-tree in-memory tree container.

The development shallowly embeds the Rust sources of the crate:

* `src/slab.rs`      — the generational arena (`Slab`, `Index`, `Slot`);
* `src/core_tree.rs` — the tree-identity layer (`CoreTree`, validation);
* `src/error.rs`     — `NodeIdError`;
* `src/node.rs`      — node records (`Node`, `Relatives`);
* `src/tree.rs`      — the structural engine (`Tree`, `TreeBuilder`);
* `src/node/node_mut.rs`, `src/node/node_ref.rs` — view operations;
* `src/iter.rs`      — the traversal iterators.

Modelling conventions:

* Rust `u64` generation counters are modelled as `Nat`; the counter is bumped
  by one per successful removal, so a wrap of the 64-bit counter is not
  reachable in any execution the crate considers (the crate itself reasons
  about the counter as strictly increasing).
* `Vec<Slot<T>>` is a `List (Slot T)`; pre-allocated capacity only affects
  allocation, never contents, and is dropped.
* Rust panics (`unreachable!`, `expect`, `unwrap`, indexing out of bounds)
  are modelled by returning `none` from the operation: a panicking operation
  produces no result state.
* `ProcessUniqueId` is modelled as a `Nat` chosen at tree construction;
  process-wide uniqueness is a hypothesis of the cross-tree theorems.
* The snapshot's `core_tree.rs` returns `Result<_, NodeIdError>` while
  `tree.rs` consumes it as an `Option`; we embed `CoreTree.get`/`get_mut`
  with `Except NodeIdError` and the `Tree` layer discards the error value
  (`Result::ok`), which is the composition the source expresses.
-/

namespace SlabTree

/-- `slab.rs` — `struct Index { index: usize, generation: u64 }`. -/
structure SlabIndex where
  index : Nat
  generation : Nat
deriving DecidableEq, Repr

/-- `slab.rs` — `enum Slot<T> { Empty { next_free_slot }, Filled { item, generation } }`. -/
inductive Slot (T : Type) where
  | empty (next_free_slot : Option Nat)
  | filled (item : T) (generation : Nat)
deriving DecidableEq, Repr

/-- `slab.rs` — `struct Slab<T> { data, first_free_slot, generation }`. -/
structure Slab (T : Type) where
  data : List (Slot T)
  first_free_slot : Option Nat
  generation : Nat
deriving DecidableEq, Repr

namespace Slab

/-- `Slab::new(capacity)` — capacity only pre-allocates, contents are empty. -/
def new (T : Type) : Slab T :=
  { data := [], first_free_slot := none, generation := 0 }

/-- `Slab::insert`.  Reuses the free-list head when present, else pushes.
`none` models the `unreachable!` panic (free-list head not an `Empty` slot)
and the panic of indexing out of bounds. -/
def insert (s : Slab T) (item : T) : Option (SlabIndex × Slab T) :=
  match s.first_free_slot with
  | some index =>
    match s.data.get? index with
    | some (.empty next_free_slot) =>
      some (⟨index, s.generation⟩,
        { s with data := s.data.set index (.filled item s.generation),
                 first_free_slot := next_free_slot })
    | some (.filled _ _) => none
    | none => none
  | none =>
    some (⟨s.data.length, s.generation⟩,
      { s with data := s.data ++ [.filled item s.generation] })

/-- `Slab::remove`.  Generation-checked removal; stale or empty or
out-of-bounds handles leave the slab untouched and return no item. -/
def remove (s : Slab T) (index : SlabIndex) : Option T × Slab T :=
  if index.index ≥ s.data.length then (none, s)
  else
    match s.data.get? index.index with
    | some (.filled item generation) =>
      if index.generation = generation then
        (some item,
          { s with data := s.data.set index.index (.empty s.first_free_slot),
                   generation := s.generation + 1,
                   first_free_slot := some index.index })
      else (none, s)
    | some (.empty _) => (none, s)
    | none => (none, s)

/-- `Slab::get` — bounds- and generation-checked lookup. -/
def get (s : Slab T) (index : SlabIndex) : Option T :=
  match s.data.get? index.index with
  | some (.filled item generation) =>
    if index.generation = generation then some item else none
  | _ => none

end Slab

/-- `error.rs` — `enum NodeIdError { WrongTree, BadNodeId }`. -/
inductive NodeIdError where
  | WrongTree
  | BadNodeId
deriving DecidableEq, Repr

/-- `lib.rs` — `struct NodeId { tree_id: ProcessUniqueId, index: slab::Index }`.
`ProcessUniqueId` is modelled as a `Nat`. -/
structure NodeId where
  tree_id : Nat
  index : SlabIndex
deriving DecidableEq, Repr

/-- `node.rs` — `struct Relatives`: the five-way relationship block. -/
structure Relatives where
  parent : Option NodeId
  prev_sibling : Option NodeId
  next_sibling : Option NodeId
  first_child : Option NodeId
  last_child : Option NodeId
deriving DecidableEq, Repr

/-- `node.rs` — `struct Node<T> { data, relatives }`. -/
structure Node (T : Type) where
  data : T
  relatives : Relatives
deriving DecidableEq, Repr

/-- `Node::new` — fresh node, all five links absent. -/
def Node.new (data : T) : Node T :=
  { data,
    relatives :=
      { parent := none, prev_sibling := none, next_sibling := none,
        first_child := none, last_child := none } }

/-- `core_tree.rs` — `struct CoreTree<T> { id: ProcessUniqueId, slab: Slab<Node<T>> }`. -/
structure CoreTree (T : Type) where
  id : Nat
  slab : Slab (Node T)
deriving DecidableEq, Repr

namespace CoreTree

/-- `CoreTree::new` — the process-unique id is supplied by the environment. -/
def new (T : Type) (id : Nat) : CoreTree T :=
  { id, slab := Slab.new (Node T) }

/-- `CoreTree::insert` — delegates to the slab, stamps the tree id. -/
def insert (c : CoreTree T) (data : T) : Option (NodeId × CoreTree T) :=
  (c.slab.insert (Node.new data)).map fun p =>
    (⟨c.id, p.1⟩, { c with slab := p.2 })

/-- `CoreTree::remove` — `slab.remove(..).expect("Invalid NodeId")`; the
panic is the `none` case.  Note: no tree-id validation here. -/
def remove (c : CoreTree T) (node_id : NodeId) : Option (T × CoreTree T) :=
  match c.slab.remove node_id.index with
  | (some node, slab) => some (node.data, { c with slab := slab })
  | (none, _) => none

/-- `CoreTree::validate_node_id` — rejects foreign tree ids. -/
def validate_node_id (c : CoreTree T) (node_id : NodeId) : Except NodeIdError Unit :=
  if node_id.tree_id ≠ c.id then .error .WrongTree else .ok ()

/-- `CoreTree::get` — validation, then generation-checked lookup. -/
def get (c : CoreTree T) (node_id : NodeId) : Except NodeIdError (Node T) := do
  c.validate_node_id node_id
  match c.slab.get node_id.index with
  | some node => pure node
  | none => .error .BadNodeId

/-- `CoreTree::get_mut` — same lookup as `get`; the mutation granted by the
returned `&mut` is modelled by `Tree.modify_node` below. -/
def get_mut (c : CoreTree T) (node_id : NodeId) : Except NodeIdError (Node T) := do
  c.validate_node_id node_id
  match c.slab.get node_id.index with
  | some node => pure node
  | none => .error .BadNodeId

end CoreTree

/-- `behaviors.rs` — `enum RemoveBehavior { DropChildren, OrphanChildren }`. -/
inductive RemoveBehavior where
  | DropChildren
  | OrphanChildren
deriving DecidableEq, Repr

/-- `tree.rs` — `struct Tree<T> { root_id, core_tree }`. -/
structure Tree (T : Type) where
  root_id : Option NodeId
  core_tree : CoreTree T
deriving DecidableEq, Repr

namespace Tree

/-- `TreeBuilder::build` — optional initial root; the capacity setting only
pre-allocates and is dropped. -/
def build (tid : Nat) (root : Option T) : Option (Tree T) :=
  let core_tree := CoreTree.new T tid
  match root with
  | none => some { root_id := none, core_tree }
  | some val =>
    (core_tree.insert val).map fun p => { root_id := some p.1, core_tree := p.2 }

/-- `Tree::get_node` — `core_tree.get` with the error discarded. -/
def get_node (t : Tree T) (node_id : NodeId) : Option (Node T) :=
  (t.core_tree.get node_id).toOption

/-- `Tree::get` — existence check, then a `NodeRef` (modelled by its id). -/
def get (t : Tree T) (node_id : NodeId) : Option NodeId :=
  (t.core_tree.get node_id).toOption.map fun _ => node_id

/-- `Tree::get_mut` — existence check, then a `NodeMut` (modelled by its id). -/
def get_mut (t : Tree T) (node_id : NodeId) : Option NodeId :=
  (t.core_tree.get_mut node_id).toOption.map fun _ => node_id

/-- The write granted by `Tree::get_node_mut`'s `&mut Node<T>`: replace the
node record in place, leaving the slot's stored generation unchanged.
`none` models the `unreachable!` panic when the node does not resolve. -/
def modify_node (t : Tree T) (node_id : NodeId) (f : Node T → Node T) : Option (Tree T) :=
  match (t.core_tree.get_mut node_id).toOption with
  | some node =>
    some { t with core_tree :=
      { t.core_tree with slab :=
        { t.core_tree.slab with
          data := (t.core_tree.slab.data.set node_id.index.index
            (Slot.filled (f node) node_id.index.generation)) } } }
  | none => none

/-- `Tree::set_parent`. -/
def set_parent (t : Tree T) (node_id : NodeId) (parent_id : Option NodeId) : Option (Tree T) :=
  t.modify_node node_id fun node =>
    { node with relatives := { node.relatives with parent := parent_id } }

/-- `Tree::set_prev_sibling`. -/
def set_prev_sibling (t : Tree T) (node_id : NodeId) (prev_sibling : Option NodeId) : Option (Tree T) :=
  t.modify_node node_id fun node =>
    { node with relatives := { node.relatives with prev_sibling := prev_sibling } }

/-- `Tree::set_next_sibling`. -/
def set_next_sibling (t : Tree T) (node_id : NodeId) (next_sibling : Option NodeId) : Option (Tree T) :=
  t.modify_node node_id fun node =>
    { node with relatives := { node.relatives with next_sibling := next_sibling } }

/-- `Tree::set_first_child`. -/
def set_first_child (t : Tree T) (node_id : NodeId) (first_child : Option NodeId) : Option (Tree T) :=
  t.modify_node node_id fun node =>
    { node with relatives := { node.relatives with first_child := first_child } }

/-- `Tree::set_last_child`. -/
def set_last_child (t : Tree T) (node_id : NodeId) (last_child : Option NodeId) : Option (Tree T) :=
  t.modify_node node_id fun node =>
    { node with relatives := { node.relatives with last_child := last_child } }

/-- `Tree::get_node_prev_sibling_id` — `unreachable!` when dead. -/
def get_node_prev_sibling_id (t : Tree T) (node_id : NodeId) : Option (Option NodeId) :=
  (t.get_node node_id).map fun node => node.relatives.prev_sibling

/-- `Tree::get_node_next_sibling_id` — `unreachable!` when dead. -/
def get_node_next_sibling_id (t : Tree T) (node_id : NodeId) : Option (Option NodeId) :=
  (t.get_node node_id).map fun node => node.relatives.next_sibling

/-- `Tree::get_node_relatives` — `unreachable!` when dead. -/
def get_node_relatives (t : Tree T) (node_id : NodeId) : Option Relatives :=
  (t.get_node node_id).map fun node => node.relatives

/-- `Tree::set_prev_siblings_next_sibling`. -/
def set_prev_siblings_next_sibling (t : Tree T) (current_id : NodeId)
    (next_sibling : Option NodeId) : Option (Tree T) := do
  match ← t.get_node_prev_sibling_id current_id with
  | some prev_sibling_id => t.set_next_sibling prev_sibling_id next_sibling
  | none => some t

/-- `Tree::set_next_siblings_prev_sibling`. -/
def set_next_siblings_prev_sibling (t : Tree T) (current_id : NodeId)
    (prev_sibling : Option NodeId) : Option (Tree T) := do
  match ← t.get_node_next_sibling_id current_id with
  | some next_sibling_id => t.set_prev_sibling next_sibling_id prev_sibling
  | none => some t

/-- `Tree::set_root` — inserts a new root; an existing root becomes its sole
child. -/
def set_root (t : Tree T) (root : T) : Option (NodeId × Tree T) := do
  let old_root_id := t.root_id
  let (new_root_id, core_tree) ← t.core_tree.insert root
  let t : Tree T := { t with root_id := some new_root_id, core_tree }
  let t ← t.set_first_child new_root_id old_root_id
  let t ← t.set_last_child new_root_id old_root_id
  let t ←
    match old_root_id with
    | some node_id => t.set_parent node_id t.root_id
    | none => some t
  some (new_root_id, t)

/-- `Tree::is_node_first_last_child`. -/
def is_node_first_last_child (t : Tree T) (node_id : NodeId) : Bool × Bool :=
  match t.get_node node_id with
  | some node =>
    match node.relatives.parent.bind fun parent_id => t.get_node parent_id with
    | some parent =>
      ((parent.relatives.first_child.map fun child_id => child_id == node_id).getD false,
       (parent.relatives.last_child.map fun child_id => child_id == node_id).getD false)
    | none => (false, false)
  | none => (false, false)

end Tree

/-- `iter.rs` — `NextSiblings::next`.  The iterator state is its `node_id`
cursor.  Outer `none` is the `unreachable!` panic inside
`get_node_relatives`; `some none` is an exhausted iterator;
`some (some (id, s))` yields `id` with successor state `s`. -/
def NextSiblings.next (t : Tree T) (node_id : Option NodeId) :
    Option (Option (NodeId × Option NodeId)) :=
  match node_id with
  | none => some none
  | some id =>
    match t.get_node_relatives id with
    | none => none
    | some rel => some (some (id, rel.next_sibling))

/-- Driving `NextSiblings` to exhaustion (e.g. `collect()`); `fuel` bounds
the number of yields, modelling divergence on corrupt link structures by
`none`. -/
def NextSiblings.collect (t : Tree T) : Nat → Option NodeId → Option (List NodeId)
  | 0, _ => none
  | fuel + 1, s =>
    match NextSiblings.next t s with
    | none => none
    | some none => some []
    | some (some (id, s2)) => (NextSiblings.collect t fuel s2).map fun l => id :: l

/-- `iter.rs` — `Ancestors::next`: take the cursor, step to its parent,
yield the parent. -/
def Ancestors.next (t : Tree T) (node_id : Option NodeId) :
    Option (Option (NodeId × Option NodeId)) :=
  match node_id with
  | none => some none
  | some id =>
    match t.get_node_relatives id with
    | none => none
    | some rel =>
      match rel.parent with
      | some pid => some (some (pid, some pid))
      | none => some none

/-- Driving `Ancestors` to exhaustion. -/
def Ancestors.collect (t : Tree T) : Nat → Option NodeId → Option (List NodeId)
  | 0, _ => none
  | fuel + 1, s =>
    match Ancestors.next t s with
    | none => none
    | some none => some []
    | some (some (id, s2)) => (Ancestors.collect t fuel s2).map fun l => id :: l

/-- `iter.rs` — `PreOrder` state: the pending start node and the stack of
`NextSiblings` iterators (stack top at the head). -/
structure PreOrderState where
  start : Option NodeId
  children : List (Option NodeId)
deriving DecidableEq, Repr

/-- `PreOrder::new` — `start = tree.get(node.node_id())`. -/
def PreOrder.new (t : Tree T) (node_id : NodeId) : PreOrderState :=
  { start := t.get node_id, children := [] }

/-- The `while !self.children.is_empty()` loop of `PreOrder::next`. -/
def PreOrder.loopNext (t : Tree T) : Nat → List (Option NodeId) →
    Option (Option (NodeId × List (Option NodeId)))
  | _, [] => some none
  | 0, _ :: _ => none
  | fuel + 1, it :: rest =>
    match NextSiblings.next t it with
    | none => none
    | some (some (node, it2)) =>
      match t.get_node_relatives node with
      | none => none
      | some rel =>
        match rel.first_child with
        | some fc => some (some (node, some fc :: it2 :: rest))
        | none => some (some (node, it2 :: rest))
    | some none => PreOrder.loopNext t fuel rest

/-- `PreOrder::next`. -/
def PreOrder.next (t : Tree T) (st : PreOrderState) (fuel : Nat) :
    Option (Option (NodeId × PreOrderState)) :=
  match st.start with
  | some node =>
    match t.get_node_relatives node with
    | none => none
    | some rel =>
      some (some (node, { start := none, children := [rel.first_child] }))
  | none =>
    (PreOrder.loopNext t fuel st.children).map fun r =>
      r.map fun p => (p.1, { start := none, children := p.2 })

/-- Driving `PreOrder` to exhaustion. -/
def PreOrder.collect (t : Tree T) : Nat → PreOrderState → Option (List NodeId)
  | 0, _ => none
  | fuel + 1, st =>
    match PreOrder.next t st fuel with
    | none => none
    | some none => some []
    | some (some (id, st2)) => (PreOrder.collect t fuel st2).map fun l => id :: l

/-- `iter.rs` — `LevelOrder` state: the start node and the path stack of
`(node, remaining-children iterator)` pairs (stack top at the head). -/
structure LevelOrderState where
  start : NodeId
  levels : List (NodeId × Option NodeId)
deriving DecidableEq, Repr

/-- `LevelOrder::new` — `tree.get(node.node_id()).expect(..)`. -/
def LevelOrder.new (t : Tree T) (node_id : NodeId) : Option LevelOrderState :=
  (t.get node_id).map fun _ => { start := node_id, levels := [] }

/-- The `while level > 0` loop of `LevelOrder::next`.  Arguments after the
stack: `level`, `on_level`, `next_level`, fuel. -/
def LevelOrder.loop (t : Tree T) (start : NodeId) :
    List (NodeId × Option NodeId) → Nat → Nat → Nat → Nat →
    Option (Option (NodeId × LevelOrderState))
  | _, 0, _, _, _ => some none
  | _, _ + 1, _, _, 0 => none
  | levels, level + 1, on_level, next_level, fuel + 1 =>
    match levels with
    | [] => none
    | (nid, it) :: rest =>
      match NextSiblings.next t it with
      | none => none
      | some (some (node, it2)) =>
        if level + 1 ≥ on_level then
          some (some (node, { start := start, levels := (nid, it2) :: rest }))
        else
          match t.get_node_relatives node with
          | none => none
          | some rel =>
            LevelOrder.loop t start ((node, rel.first_child) :: (nid, it2) :: rest)
              (level + 2) on_level next_level fuel
      | some none =>
        match rest with
        | (nid2, it2) :: rest2 =>
          match NextSiblings.next t it2 with
          | none => none
          | some (some (nxt, it3)) =>
            match t.get_node_relatives nxt with
            | none => none
            | some rel =>
              LevelOrder.loop t start ((nxt, rel.first_child) :: (nid2, it3) :: rest2)
                (level + 1) on_level next_level fuel
          | some none =>
            if level + 1 = 1 then
              if on_level < next_level then
                match t.get nid with
                | none => none
                | some _ =>
                  match t.get_node_relatives nid with
                  | none => none
                  | some rel =>
                    LevelOrder.loop t start ((nid, rel.first_child) :: (nid2, it2) :: rest2)
                      (level + 1) (on_level + 1) next_level fuel
              else some none
            else
              LevelOrder.loop t start ((nid2, it2) :: rest2) level on_level next_level fuel
        | [] =>
          if level + 1 = 1 then
            if on_level < next_level then
              match t.get nid with
              | none => none
              | some _ =>
                match t.get_node_relatives nid with
                | none => none
                | some rel =>
                  LevelOrder.loop t start [(nid, rel.first_child)]
                    (level + 1) (on_level + 1) next_level fuel
            else some none
          else
            LevelOrder.loop t start [] level on_level next_level fuel

/-- `LevelOrder::next`. -/
def LevelOrder.next (t : Tree T) (st : LevelOrderState) (fuel : Nat) :
    Option (Option (NodeId × LevelOrderState)) :=
  if st.levels.isEmpty then
    match t.get_node_relatives st.start with
    | none => none
    | some rel =>
      match t.get st.start with
      | none => none
      | some _ =>
        some (some (st.start, { st with levels := [(st.start, rel.first_child)] }))
  else
    LevelOrder.loop t st.start st.levels st.levels.length st.levels.length
      (st.levels.length + 1) fuel

/-- Driving `LevelOrder` to exhaustion. -/
def LevelOrder.collect (t : Tree T) : Nat → LevelOrderState → Option (List NodeId)
  | 0, _ => none
  | fuel + 1, st =>
    match LevelOrder.next t st fuel with
    | none => none
    | some none => some []
    | some (some (id, st2)) => (LevelOrder.collect t fuel st2).map fun l => id :: l

namespace Tree

/-- `Tree::drop_children` — collect the level-order ids below `node_id`
(skipping the node itself), then free each of them. -/
def drop_children (t : Tree T) (node_id : NodeId) (fuel : Nat) : Option (Tree T) := do
  let _ ← t.get node_id
  let st ← LevelOrder.new t node_id
  let ids ← LevelOrder.collect t fuel st
  let sub_tree_ids := ids.drop 1
  sub_tree_ids.foldlM (fun t id =>
    match t.core_tree.remove id with
    | some (_, core_tree) => some { t with core_tree := core_tree }
    | none => none) t

/-- `Tree::orphan_children` — collect the direct children, then clear each
child's parent link. -/
def orphan_children (t : Tree T) (node_id : NodeId) (fuel : Nat) : Option (Tree T) := do
  let _ ← t.get node_id
  let rel ← t.get_node_relatives node_id
  let child_ids ← NextSiblings.collect t fuel rel.first_child
  child_ids.foldlM (fun t id => t.set_parent id none) t

/-- `Tree::remove` — splice the node out of its sibling list, apply the
removal policy to its descendants, clear the root handle when needed, free
the node and return its payload. -/
def remove (t : Tree T) (node_id : NodeId) (behavior : RemoveBehavior) (fuel : Nat) :
    Option (Option T × Tree T) :=
  match t.get_node node_id with
  | some node => do
    let rel := node.relatives
    let fl := t.is_node_first_last_child node_id
    let t ←
      if fl.1 then do
        let p ← rel.parent
        t.set_first_child p rel.next_sibling
      else some t
    let t ←
      if fl.2 then do
        let p ← rel.parent
        t.set_last_child p rel.prev_sibling
      else some t
    let t ←
      match rel.prev_sibling with
      | some prev => t.set_next_sibling prev rel.next_sibling
      | none => some t
    let t ←
      match rel.next_sibling with
      | some next => t.set_prev_sibling next rel.prev_sibling
      | none => some t
    let t ←
      match behavior with
      | .DropChildren => t.drop_children node_id fuel
      | .OrphanChildren => t.orphan_children node_id fuel
    let t := if t.root_id = some node_id then { t with root_id := none } else t
    let (data, core_tree) ← t.core_tree.remove node_id
    some (some data, { t with core_tree := core_tree })
  | none => some (none, t)

end Tree

namespace NodeMut

/-- `NodeMut::append` — insert as last child, fixing up to five links. -/
def append (t : Tree T) (node_id : NodeId) (data : T) : Option (NodeId × Tree T) := do
  let (new_id, core_tree) ← t.core_tree.insert data
  let t : Tree T := { t with core_tree }
  let rel ← t.get_node_relatives node_id
  let prev_sibling := rel.last_child
  let t ← t.set_parent new_id (some node_id)
  let t ← t.set_prev_sibling new_id prev_sibling
  let first_child := rel.first_child <|> some new_id
  let t ← t.set_first_child node_id first_child
  let t ← t.set_last_child node_id (some new_id)
  let t ←
    match prev_sibling with
    | some pid => t.set_next_sibling pid (some new_id)
    | none => some t
  some (new_id, t)

/-- `NodeMut::prepend` — insert as first child. -/
def prepend (t : Tree T) (node_id : NodeId) (data : T) : Option (NodeId × Tree T) := do
  let (new_id, core_tree) ← t.core_tree.insert data
  let t : Tree T := { t with core_tree }
  let rel ← t.get_node_relatives node_id
  let next_sibling := rel.first_child
  let t ← t.set_parent new_id (some node_id)
  let t ← t.set_next_sibling new_id next_sibling
  let last_child := rel.last_child <|> some new_id
  let t ← t.set_first_child node_id (some new_id)
  let t ← t.set_last_child node_id last_child
  let t ←
    match next_sibling with
    | some nid => t.set_prev_sibling nid (some new_id)
    | none => some t
  some (new_id, t)

/-- `NodeMut::remove_first` — remove the current first child (if any)
through `Tree::remove` with the chosen behavior. -/
def remove_first (t : Tree T) (node_id : NodeId) (behavior : RemoveBehavior)
    (fuel : Nat) : Option (Option T × Tree T) := do
  let rel ← t.get_node_relatives node_id
  match rel.first_child with
  | none => some (none, t)
  | some first_id => t.remove first_id behavior fuel

/-- `NodeMut::remove_last` — remove the current last child (if any)
through `Tree::remove` with the chosen behavior. -/
def remove_last (t : Tree T) (node_id : NodeId) (behavior : RemoveBehavior)
    (fuel : Nat) : Option (Option T × Tree T) := do
  let rel ← t.get_node_relatives node_id
  match rel.last_child with
  | none => some (none, t)
  | some last_id => t.remove last_id behavior fuel

/-- `NodeMut::swap_next_sibling`. -/
def swap_next_sibling (t : Tree T) (node_id : NodeId) : Option (Bool × Tree T) := do
  let prev_id ← t.get_node_prev_sibling_id node_id
  let next_id0 ← t.get_node_next_sibling_id node_id
  match next_id0 with
  | some next_id =>
    let nd ← t.get_node node_id
    let t ←
      match nd.relatives.parent with
      | some parent_id => do
        let _ ← t.get parent_id
        let prel ← t.get_node_relatives parent_id
        let first ← prel.first_child
        let last ← prel.last_child
        let set_first := node_id = first
        let set_last := next_id = last
        let t ← if set_first then t.set_first_child parent_id (some next_id) else some t
        let t ← if set_last then t.set_last_child parent_id (some node_id) else some t
        some t
      | none => some t
    let new_next_id ← t.get_node_next_sibling_id next_id
    let t ← t.set_prev_siblings_next_sibling node_id (some next_id)
    let t ← t.set_next_siblings_prev_sibling node_id prev_id
    let t ← t.set_prev_sibling node_id (some next_id)
    let t ← t.set_next_sibling node_id new_next_id
    let t ← t.set_prev_siblings_next_sibling node_id (some node_id)
    let t ← t.set_next_siblings_prev_sibling node_id (some node_id)
    some (true, t)
  | none => some (false, t)

/-- `NodeMut::swap_prev_sibling`. -/
def swap_prev_sibling (t : Tree T) (node_id : NodeId) : Option (Bool × Tree T) := do
  let prev_id0 ← t.get_node_prev_sibling_id node_id
  let next_id ← t.get_node_next_sibling_id node_id
  match prev_id0 with
  | some prev_id =>
    let nd ← t.get_node node_id
    let t ←
      match nd.relatives.parent with
      | some parent_id => do
        let _ ← t.get parent_id
        let prel ← t.get_node_relatives parent_id
        let first ← prel.first_child
        let last ← prel.last_child
        let set_first := prev_id = first
        let set_last := node_id = last
        let t ← if set_first then t.set_first_child parent_id (some node_id) else some t
        let t ← if set_last then t.set_last_child parent_id (some prev_id) else some t
        some t
      | none => some t
    let new_prev_id ← t.get_node_prev_sibling_id prev_id
    let t ← t.set_prev_siblings_next_sibling node_id next_id
    let t ← t.set_next_siblings_prev_sibling node_id (some prev_id)
    let t ← t.set_prev_sibling node_id new_prev_id
    let t ← t.set_next_sibling node_id (some prev_id)
    let t ← t.set_prev_siblings_next_sibling node_id (some node_id)
    let t ← t.set_next_siblings_prev_sibling node_id (some node_id)
    some (true, t)
  | none => some (false, t)

/-- `NodeMut::make_last_sibling`. -/
def make_last_sibling (t : Tree T) (node_id : NodeId) : Option (Bool × Tree T) := do
  let nd ← t.get_node node_id
  match nd.relatives.parent with
  | some parent_id => do
    let prev_id ← t.get_node_prev_sibling_id node_id
    let next_id ← t.get_node_next_sibling_id node_id
    let _ ← t.get parent_id
    let prel ← t.get_node_relatives parent_id
    let last_id ← prel.last_child
    let _ ← t.get parent_id
    let first_id ← prel.first_child
    if node_id ≠ last_id then
      let t ← t.set_last_child parent_id (some node_id)
      let t ← if node_id = first_id then t.set_first_child parent_id next_id else some t
      let t ← t.set_next_sibling last_id (some node_id)
      let t ← t.set_prev_siblings_next_sibling node_id next_id
      let t ← t.set_next_siblings_prev_sibling node_id prev_id
      let t ← t.set_prev_sibling node_id (some last_id)
      let t ← t.set_next_sibling node_id none
      some (true, t)
    else some (false, t)
  | none => some (false, t)

/-- `NodeMut::make_first_sibling`. -/
def make_first_sibling (t : Tree T) (node_id : NodeId) : Option (Bool × Tree T) := do
  let nd ← t.get_node node_id
  match nd.relatives.parent with
  | some parent_id => do
    let prev_id ← t.get_node_prev_sibling_id node_id
    let next_id ← t.get_node_next_sibling_id node_id
    let _ ← t.get parent_id
    let prel ← t.get_node_relatives parent_id
    let first_id ← prel.first_child
    let _ ← t.get parent_id
    let last_id ← prel.last_child
    if node_id ≠ first_id then
      let t ← t.set_first_child parent_id (some node_id)
      let t ← if node_id = last_id then t.set_last_child parent_id prev_id else some t
      let t ← t.set_prev_sibling first_id (some node_id)
      let t ← t.set_prev_siblings_next_sibling node_id next_id
      let t ← t.set_next_siblings_prev_sibling node_id prev_id
      let t ← t.set_next_sibling node_id (some first_id)
      let t ← t.set_prev_sibling node_id none
      some (true, t)
    else some (false, t)
  | none => some (false, t)

end NodeMut

/-! ### Arena operation sequences (claim C1) -/

/-- An arbitrary `Slab` operation: insert a value or remove a handle. -/
inductive SlabOp (T : Type) where
  | ins (item : T)
  | rem (index : SlabIndex)

/-- One `Slab` operation, discarding returned values. -/
def Slab.step (s : Slab T) : SlabOp T → Option (Slab T)
  | .ins item => (s.insert item).map fun p => p.2
  | .rem index => some (s.remove index).2

/-- A sequence of `Slab` operations. -/
def Slab.runOps (s : Slab T) : List (SlabOp T) → Option (Slab T)
  | [] => some s
  | op :: ops => (s.step op).bind fun s2 => s2.runOps ops

/-- Every filled slot's stamp is bounded by the arena counter (holds in all
reachable slabs). -/
def Slab.WF (s : Slab T) : Prop :=
  ∀ i item g, s.data.get? i = some (.filled item g) → g ≤ s.generation

/-- A dead handle: the arena counter has moved past its stamp and its slot no
longer stores that stamp. -/
def Slab.dead (s : Slab T) (h : SlabIndex) : Prop :=
  h.generation < s.generation ∧
    ∀ item, s.data.get? h.index ≠ some (.filled item h.generation)

/-- A live handle: its slot stores its stamp, which the counter bounds. -/
def Slab.liveAt (s : Slab T) (i g : Nat) : Prop :=
  g ≤ s.generation ∧ ∃ item, s.data.get? i = some (.filled item g)

theorem Slab.insert_eq {s : Slab T} {v : T} {h : SlabIndex} {s2 : Slab T}
    (hi : s.insert v = some (h, s2)) :
    h.generation = s.generation ∧ s2.generation = s.generation ∧
    s2.data.get? h.index = some (.filled v s.generation) ∧
    (∀ j, j ≠ h.index → s2.data.get? j = s.data.get? j) ∧
    (s.data.get? h.index = none ∨ ∃ nf, s.data.get? h.index = some (.empty nf)) := by
  rcases hff : s.first_free_slot with _ | index
  · simp only [Slab.insert, hff, Option.some_inj] at hi
    obtain ⟨h1, h2⟩ := Prod.mk.injEq .. ▸ hi
    subst h1; subst h2
    refine ⟨rfl, rfl, ?_, ?_, ?_⟩
    · simp [List.get?_eq_getElem?]
    · intro j hj
      simp only [List.get?_eq_getElem?]
      rcases lt_trichotomy j s.data.length with hlt | heq | hgt
      · simp [List.getElem?_append_left hlt]
      · exact absurd heq hj
      · rw [List.getElem?_eq_none (by simpa using hgt),
          List.getElem?_eq_none (by omega)]
    · left; simp [List.get?_eq_getElem?, List.getElem?_eq_none (le_refl s.data.length)]
  · rcases hslot : s.data.get? index with _ | slot
    · simp only [Slab.insert, hff, hslot] at hi
      exact Option.noConfusion hi
    · rcases slot with ⟨nf⟩ | ⟨item, g⟩
      · simp only [Slab.insert, hff, hslot, Option.some_inj] at hi
        obtain ⟨h1, h2⟩ := Prod.mk.injEq .. ▸ hi
        subst h1; subst h2
        have hlen : index < s.data.length := by
          by_contra hge
          rw [List.get?_eq_getElem?, List.getElem?_eq_none (by omega)] at hslot
          exact absurd hslot (by simp)
        refine ⟨rfl, rfl, ?_, ?_, ?_⟩
        · simp [List.get?_eq_getElem?, List.getElem?_set_self, hlen]
        · intro j hj
          simp [List.get?_eq_getElem?, List.getElem?_set_ne (Ne.symm hj)]
        · right; exact ⟨nf, hslot⟩
      · simp only [Slab.insert, hff, hslot] at hi
        exact Option.noConfusion hi

theorem Slab.remove_eq {s : Slab T} {h : SlabIndex} {r : Option T} {s2 : Slab T}
    (hr : s.remove h = (r, s2)) :
    (r = none ∧ s2 = s ∧ ∀ item, s.data.get? h.index ≠ some (.filled item h.generation)) ∨
    (∃ item, r = some item ∧ s.data.get? h.index = some (.filled item h.generation) ∧
      s2 = { data := s.data.set h.index (.empty s.first_free_slot),
             first_free_slot := some h.index, generation := s.generation + 1 }) := by
  by_cases hlen : h.index ≥ s.data.length
  · simp only [Slab.remove, if_pos hlen, Prod.mk.injEq] at hr
    obtain ⟨h1, h2⟩ := hr
    refine Or.inl ⟨h1.symm, h2.symm, fun item hc => ?_⟩
    rw [List.get?_eq_getElem?, List.getElem?_eq_none (by omega)] at hc
    exact absurd hc (by simp)
  · rcases hslot : s.data.get? h.index with _ | slot
    · simp only [Slab.remove, if_neg hlen, hslot, Prod.mk.injEq] at hr
      obtain ⟨h1, h2⟩ := hr
      exact Or.inl ⟨h1.symm, h2.symm, fun item hc => absurd hc (by simp)⟩
    · rcases slot with ⟨nf⟩ | ⟨item, g⟩
      · simp only [Slab.remove, if_neg hlen, hslot, Prod.mk.injEq] at hr
        obtain ⟨h1, h2⟩ := hr
        refine Or.inl ⟨h1.symm, h2.symm, fun i hc => ?_⟩
        simp at hc
      · by_cases hg : h.generation = g
        · simp only [Slab.remove, if_neg hlen, hslot, if_pos hg, Prod.mk.injEq] at hr
          obtain ⟨h1, h2⟩ := hr
          exact Or.inr ⟨item, h1.symm, by rw [hg], h2.symm⟩
        · simp only [Slab.remove, if_neg hlen, hslot, if_neg hg, Prod.mk.injEq] at hr
          obtain ⟨h1, h2⟩ := hr
          refine Or.inl ⟨h1.symm, h2.symm, fun i hc => ?_⟩
          simp only [Option.some_inj, Slot.filled.injEq] at hc
          exact hg hc.2.symm

theorem Slab.insert_get {s : Slab T} {v : T} {h : SlabIndex} {s2 : Slab T}
    (hi : s.insert v = some (h, s2)) : s2.get h = some v := by
  obtain ⟨hg, _, hslot, _, _⟩ := Slab.insert_eq hi
  simp only [Slab.get, hslot, if_pos hg]

theorem Slab.wf_new : (Slab.new T).WF := by
  intro i item g hc
  simp [Slab.new] at hc

theorem Slab.wf_insert {s : Slab T} {v : T} {h : SlabIndex} {s2 : Slab T}
    (hwf : s.WF) (hi : s.insert v = some (h, s2)) : s2.WF := by
  obtain ⟨_, hgen, hslot, hother, _⟩ := Slab.insert_eq hi
  intro i item g hc
  rw [hgen]
  by_cases hih : i = h.index
  · subst hih
    rw [hslot] at hc
    simp only [Option.some_inj, Slot.filled.injEq] at hc
    omega
  · exact hwf i item g ((hother i hih) ▸ hc)

theorem Slab.wf_remove {s : Slab T} {h : SlabIndex} (hwf : s.WF) :
    (s.remove h).2.WF := by
  rcases hr : s.remove h with ⟨r, s2⟩
  rcases Slab.remove_eq hr with ⟨_, hs2, _⟩ | ⟨item, _, _, hs2⟩
  · simpa [hs2] using hwf
  · subst hs2
    intro i it g hc
    simp only at hc ⊢
    by_cases hih : i = h.index
    · rw [hih] at hc
      by_cases hlt : h.index < s.data.length
      · rw [List.get?_eq_getElem?, List.getElem?_set_self hlt] at hc
        exact absurd hc (by simp)
      · rw [List.get?_eq_getElem?, List.getElem?_eq_none (by simpa using hlt)] at hc
        exact absurd hc (by simp)
    · rw [List.get?_eq_getElem?, List.getElem?_set_ne (Ne.symm hih),
        ← List.get?_eq_getElem?] at hc
      exact le_trans (hwf i it g hc) (Nat.le_succ _)

theorem Slab.wf_step {s s2 : Slab T} {op : SlabOp T}
    (hwf : s.WF) (hs : s.step op = some s2) : s2.WF := by
  cases op with
  | ins item =>
    simp only [Slab.step, Option.map_eq_some'] at hs
    obtain ⟨⟨h, s'⟩, hi, heq⟩ := hs
    subst heq
    exact Slab.wf_insert hwf hi
  | rem index =>
    simp only [Slab.step, Option.some_inj] at hs
    subst hs
    exact Slab.wf_remove hwf

theorem Slab.wf_runOps {s s2 : Slab T} {ops : List (SlabOp T)}
    (hwf : s.WF) (hs : s.runOps ops = some s2) : s2.WF := by
  induction ops generalizing s with
  | nil => simp only [Slab.runOps, Option.some_inj] at hs; subst hs; exact hwf
  | cons op ops ih =>
    simp only [Slab.runOps, Option.bind_eq_some] at hs
    obtain ⟨s1, h1, h2⟩ := hs
    exact ih (Slab.wf_step hwf h1) h2

theorem Slab.dead_get {s : Slab T} {h : SlabIndex} (hd : s.dead h) :
    s.get h = none := by
  rcases hslot : s.data.get? h.index with _ | slot
  · simp only [Slab.get, hslot]
  · rcases slot with ⟨nf⟩ | ⟨item, g⟩
    · simp only [Slab.get, hslot]
    · simp only [Slab.get, hslot]
      rw [if_neg]
      intro hg
      exact hd.2 item (by rw [hslot, hg])

theorem Slab.dead_remove {s : Slab T} {h : SlabIndex} (hd : s.dead h) :
    s.remove h = (none, s) := by
  rcases hr : s.remove h with ⟨r, s2⟩
  rcases Slab.remove_eq hr with ⟨h1, h2, _⟩ | ⟨item, _, hslot, _⟩
  · rw [h1, h2]
  · exact absurd hslot (hd.2 item)

theorem Slab.dead_insert {s : Slab T} {v : T} {h h2 : SlabIndex} {s2 : Slab T}
    (hd : s.dead h) (hi : s.insert v = some (h2, s2)) : s2.dead h := by
  obtain ⟨_, hgen, hslot, hother, _⟩ := Slab.insert_eq hi
  refine ⟨by rw [hgen]; exact hd.1, fun item hc => ?_⟩
  by_cases hih : h.index = h2.index
  · rw [hih, hslot] at hc
    simp only [Option.some_inj, Slot.filled.injEq] at hc
    have hd1 := hd.1
    omega
  · exact hd.2 item ((hother h.index hih) ▸ hc)

theorem Slab.dead_remove_any {s : Slab T} {h h2 : SlabIndex} (hd : s.dead h) :
    (s.remove h2).2.dead h := by
  rcases hr : s.remove h2 with ⟨r, s2⟩
  rcases Slab.remove_eq hr with ⟨_, hs2, _⟩ | ⟨item, _, _, hs2⟩
  · simpa [hs2] using hd
  · subst hs2
    refine ⟨Nat.lt_succ_of_lt hd.1, fun it hc => ?_⟩
    simp only at hc
    by_cases hih : h.index = h2.index
    · by_cases hlt : h2.index < s.data.length
      · rw [hih, List.get?_eq_getElem?, List.getElem?_set_self hlt] at hc
        exact absurd hc (by simp)
      · rw [hih, List.get?_eq_getElem?, List.getElem?_eq_none (by simpa using hlt)] at hc
        exact absurd hc (by simp)
    · rw [List.get?_eq_getElem?, List.getElem?_set_ne (fun he => hih he.symm),
        ← List.get?_eq_getElem?] at hc
      exact hd.2 it hc

theorem Slab.dead_step {s s2 : Slab T} {h : SlabIndex} {op : SlabOp T}
    (hd : s.dead h) (hs : s.step op = some s2) : s2.dead h := by
  cases op with
  | ins item =>
    simp only [Slab.step, Option.map_eq_some'] at hs
    obtain ⟨⟨h2, s'⟩, hi, heq⟩ := hs
    subst heq
    exact Slab.dead_insert hd hi
  | rem index =>
    simp only [Slab.step, Option.some_inj] at hs
    subst hs
    exact Slab.dead_remove_any hd

theorem Slab.dead_runOps {s s2 : Slab T} {h : SlabIndex} {ops : List (SlabOp T)}
    (hd : s.dead h) (hs : s.runOps ops = some s2) : s2.dead h := by
  induction ops generalizing s with
  | nil => simp only [Slab.runOps, Option.some_inj] at hs; subst hs; exact hd
  | cons op ops ih =>
    simp only [Slab.runOps, Option.bind_eq_some] at hs
    obtain ⟨s1, h1, h2⟩ := hs
    exact ih (Slab.dead_step hd h1) h2

theorem Slab.liveAt_or_dead_step {s s2 : Slab T} {i g : Nat} {op : SlabOp T}
    (hld : s.liveAt i g ∨ s.dead ⟨i, g⟩) (hs : s.step op = some s2) :
    s2.liveAt i g ∨ s2.dead ⟨i, g⟩ := by
  rcases hld with hlive | hdead
  · cases op with
    | ins item =>
      simp only [Slab.step, Option.map_eq_some'] at hs
      obtain ⟨⟨h2, s'⟩, hi, heq⟩ := hs
      subst heq
      obtain ⟨_, hgen, hslot, hother, hold⟩ := Slab.insert_eq hi
      obtain ⟨hg, it, hit⟩ := hlive
      have hih : i ≠ h2.index := by
        intro he
        rcases hold with hnone | ⟨nf, hnf⟩
        · rw [he, hnone] at hit; exact absurd hit (by simp)
        · rw [he, hnf] at hit; exact absurd hit (by simp)
      exact Or.inl ⟨by rw [hgen]; exact hg, it, (hother i hih) ▸ hit⟩
    | rem index =>
      simp only [Slab.step, Option.some_inj] at hs
      subst hs
      rcases hr : s.remove index with ⟨r, s2⟩
      rcases Slab.remove_eq hr with ⟨_, hs2, _⟩ | ⟨item, _, hslot, hs2⟩
      · refine Or.inl ?_
        show Slab.liveAt s2 i g
        rw [hs2]; exact hlive
      · obtain ⟨hg, it, hit⟩ := hlive
        by_cases hih : i = index.index
        · refine Or.inr ⟨?_, fun it2 hc => ?_⟩
          · show g < s2.generation
            rw [hs2]
            exact Nat.lt_succ_of_le hg
          · rw [hih, hs2] at hc
            simp only at hc
            by_cases hlt : index.index < s.data.length
            · rw [List.get?_eq_getElem?, List.getElem?_set_self hlt] at hc
              exact absurd hc (by simp)
            · rw [List.get?_eq_getElem?, List.getElem?_eq_none (by simpa using hlt)] at hc
              exact absurd hc (by simp)
        · refine Or.inl ⟨?_, it, ?_⟩
          · show g ≤ s2.generation
            rw [hs2]
            exact Nat.le_succ_of_le hg
          · rw [hs2]
            simp only
            rw [List.get?_eq_getElem?, List.getElem?_set_ne (Ne.symm hih),
              ← List.get?_eq_getElem?]
            exact hit
  · exact Or.inr (Slab.dead_step hdead hs)

theorem Slab.liveAt_or_dead_runOps {s s2 : Slab T} {i g : Nat} {ops : List (SlabOp T)}
    (hld : s.liveAt i g ∨ s.dead ⟨i, g⟩) (hs : s.runOps ops = some s2) :
    s2.liveAt i g ∨ s2.dead ⟨i, g⟩ := by
  induction ops generalizing s with
  | nil => simp only [Slab.runOps, Option.some_inj] at hs; subst hs; exact hld
  | cons op ops ih =>
    simp only [Slab.runOps, Option.bind_eq_some] at hs
    obtain ⟨s1, h1, h2⟩ := hs
    exact ih (Slab.liveAt_or_dead_step hld h1) h2

theorem Slab.get_liveAt {s : Slab T} {h : SlabIndex} {w : T}
    (hwf : s.WF) (hg : s.get h = some w) : s.liveAt h.index h.generation := by
  rcases hslot : s.data.get? h.index with _ | slot
  · simp only [Slab.get, hslot] at hg
    exact Option.noConfusion hg
  · rcases slot with ⟨nf⟩ | ⟨item, g⟩
    · simp only [Slab.get, hslot] at hg
      exact Option.noConfusion hg
    · simp only [Slab.get, hslot] at hg
      by_cases hgen : h.generation = g
      · exact ⟨hgen ▸ hwf h.index item g hslot, item, by rw [hslot, hgen]⟩
      · rw [if_neg hgen] at hg; exact absurd hg (by simp)

/-- Claim C1.  For every sequence of `Slab` insert/remove operations from the
empty arena: `get` immediately after `insert` returns the inserted value;
after a successful `remove` of a handle, `get` of that handle returns absent
from then on (through any further operation sequence, hence also after the
slot is reused) and a further `remove` of it is a no-op returning absent; and
any handle later issued by an insert for the same slot position carries a
different generation than any handle that was ever valid for that slot. -/
theorem slab_insert_remove_lifecycle (ops : List (SlabOp Nat)) (s : Slab Nat)
    (hrun : (Slab.new Nat).runOps ops = some s) :
    (∀ v h s2, s.insert v = some (h, s2) → s2.get h = some v) ∧
    (∀ h x s2, s.remove h = (some x, s2) →
      ∀ ops2 s3, s2.runOps ops2 = some s3 →
        s3.get h = none ∧ s3.remove h = (none, s3)) ∧
    (∀ h w, s.get h = some w →
      ∀ ops2 s3, s.runOps ops2 = some s3 →
        ∀ v h2 s4, s3.insert v = some (h2, s4) → h2.index = h.index →
          h2.generation ≠ h.generation) := by
  have hwf : s.WF := Slab.wf_runOps Slab.wf_new hrun
  refine ⟨fun v h s2 hi => Slab.insert_get hi, fun h x s2 hr ops2 s3 hrun2 => ?_, ?_⟩
  · have hdead2 : s2.dead h := by
      rcases Slab.remove_eq hr with ⟨hc, _, _⟩ | ⟨item, _, hslot, hs2⟩
      · exact absurd hc (by simp)
      · subst hs2
        refine ⟨Nat.lt_succ_of_le (hwf h.index item h.generation hslot), fun it hc => ?_⟩
        have hlt : h.index < s.data.length := by
          by_contra hge
          rw [List.get?_eq_getElem?, List.getElem?_eq_none (by omega)] at hslot
          exact absurd hslot (by simp)
        rw [List.get?_eq_getElem?, List.getElem?_set_self hlt] at hc
        exact absurd hc (by simp)
    have hdead3 : s3.dead h := Slab.dead_runOps hdead2 hrun2
    exact ⟨Slab.dead_get hdead3, Slab.dead_remove hdead3⟩
  · intro h w hg ops2 s3 hrun2 v h2 s4 hi hidx
    have hld : s3.liveAt h.index h.generation ∨ s3.dead ⟨h.index, h.generation⟩ :=
      Slab.liveAt_or_dead_runOps (Or.inl (Slab.get_liveAt hwf hg)) hrun2
    obtain ⟨hg2, hgen2, hslot2, hother2, hold2⟩ := Slab.insert_eq hi
    rcases hld with ⟨_, it, hit⟩ | hdead
    · exfalso
      rcases hold2 with hnone | ⟨nf, hnf⟩
      · rw [hidx, hit] at hnone; exact absurd hnone (by simp)
      · rw [hidx, hit] at hnf
        simp only [Option.some_inj] at hnf
        exact absurd hnf (by simp)
    · intro hc
      have : h.generation < s3.generation := hdead.1
      omega

/-- Witness for C1: the empty run reaches the empty slab, where inserting `6`
yields handle `⟨0, 0⟩` and `get` on it returns `6`. -/
theorem slab_insert_remove_lifecycle_witness :
    (Slab.new Nat).runOps [] = some (Slab.new Nat) ∧
    ({ data := [Slot.filled 6 0], first_free_slot := none, generation := 0 } : Slab Nat).get
      ⟨0, 0⟩ = some 6 :=
  ⟨rfl, (slab_insert_remove_lifecycle [] (Slab.new Nat) rfl).1 6 ⟨0, 0⟩
    { data := [Slot.filled 6 0], first_free_slot := none, generation := 0 } rfl⟩

/-! ### Concrete example trees used by witnesses and counterexamples -/

/-- The tree reached by: build with root `1` (tree id 0), append child `2`,
remove the child with `DropChildren`.  Slot 1 is freed, the counter is 1. -/
def exT3 : Tree Nat :=
  ⟨some ⟨0, 0, 0⟩,
    ⟨0, ⟨[.filled ⟨1, ⟨none, none, none, none, none⟩⟩ 0, .empty none], some 1, 1⟩⟩⟩

/-- A stale handle for `exT3`: the freed child slot. -/
def exStale : NodeId := ⟨0, 1, 0⟩

/-- A foreign handle: same slot coordinates, different tree id. -/
def exForeign : NodeId := ⟨7, 1, 0⟩

/-- The tree reached by: build with root `1`, append children `2`, `3`,
remove the root with `OrphanChildren`; the two orphans keep their mutual
sibling links and have no parent. -/
def exOrphanT : Tree Nat :=
  ⟨none,
    ⟨0, ⟨[.empty none,
          .filled ⟨2, ⟨none, none, some ⟨0, 2, 0⟩, none, none⟩⟩ 0,
          .filled ⟨3, ⟨none, some ⟨0, 1, 0⟩, none, none, none⟩⟩ 0], some 0, 1⟩⟩⟩

/-- The orphaned first child of `exOrphanT`. -/
def exOrphanN2 : Node Nat := ⟨2, ⟨none, none, some ⟨0, 2, 0⟩, none, none⟩⟩

/-- The chain tree `1 → 2 → 3` (root `1`, child `2`, grandchild `3`). -/
def exChainT : Tree Nat :=
  ⟨some ⟨0, 0, 0⟩,
    ⟨0, ⟨[.filled ⟨1, ⟨none, none, none, some ⟨0, 1, 0⟩, some ⟨0, 1, 0⟩⟩⟩ 0,
          .filled ⟨2, ⟨some ⟨0, 0, 0⟩, none, none, some ⟨0, 2, 0⟩, some ⟨0, 2, 0⟩⟩⟩ 0,
          .filled ⟨3, ⟨some ⟨0, 1, 0⟩, none, none, none, none⟩⟩ 0], none, 0⟩⟩⟩

/-- `exChainT` after `remove_first(DropChildren)` on the root: both the child
and the grandchild are freed. -/
def exChainT2 : Tree Nat :=
  ⟨some ⟨0, 0, 0⟩,
    ⟨0, ⟨[.filled ⟨1, ⟨none, none, none, none, none⟩⟩ 0,
          .empty (some 2), .empty none], some 1, 2⟩⟩⟩

/-- The root's relatives in `exChainT`. -/
def exChainRootRel : Relatives := ⟨none, none, none, some ⟨0, 1, 0⟩, some ⟨0, 1, 0⟩⟩

/-! ### Claim C3: cross-tree isolation -/

/-- Claim C3.  A `NodeId` whose tree identifier differs from the queried
tree's process-unique identifier is always rejected: the identity layer
reports `WrongTree`, and the public `get`/`get_mut` resolve to absence while
`remove` removes nothing and leaves the tree unchanged — the id never
resolves to any node of the foreign tree. -/
theorem cross_tree_isolation (t : Tree Nat) (id : NodeId) (b : RemoveBehavior) (fuel : Nat)
    (hforeign : id.tree_id ≠ t.core_tree.id) :
    t.core_tree.get id = .error .WrongTree ∧
    t.core_tree.get_mut id = .error .WrongTree ∧
    t.get id = none ∧ t.get_mut id = none ∧
    t.remove id b fuel = some (none, t) := by
  have hget : t.core_tree.get id = .error .WrongTree := by
    simp [CoreTree.get, CoreTree.validate_node_id, hforeign, Bind.bind, Except.bind]
  have hgetm : t.core_tree.get_mut id = .error .WrongTree := by
    simp [CoreTree.get_mut, CoreTree.validate_node_id, hforeign, Bind.bind, Except.bind]
  refine ⟨hget, hgetm, ?_, ?_, ?_⟩
  · simp [Tree.get, hget, Except.toOption]
  · simp [Tree.get_mut, hgetm, Except.toOption]
  · simp [Tree.remove, Tree.get_node, hget, Except.toOption]

/-- Witness for C3 at the concrete tree `exT3` and foreign id `exForeign`. -/
theorem cross_tree_isolation_witness :
    exForeign.tree_id ≠ exT3.core_tree.id ∧ exT3.get exForeign = none :=
  ⟨by decide, (cross_tree_isolation exT3 exForeign .DropChildren 9 (by decide)).2.2.1⟩

/-! ### Claim C5: error distinction (corrected) -/

/-- Counterexample to claim C5 as stated.  On the concrete tree `exT3`
(reached by build/append/remove), a wrong-tree id (`exForeign`) and a stale
id (`exStale`) produce identical results through every public operation —
`get`, `get_mut` and `remove` all return plain absence — so a caller of the
public interface cannot tell "wrong tree" apart from "stale/unknown
handle". -/
theorem public_interface_collapses_wrong_tree_and_stale :
    (do
      let t ← Tree.build 0 (some (1 : Nat))
      let p ← NodeMut.append t ⟨0, 0, 0⟩ 2
      p.2.remove p.1 .DropChildren 9) = some (some 2, exT3) ∧
    exForeign.tree_id ≠ exT3.core_tree.id ∧
    exStale.tree_id = exT3.core_tree.id ∧
    exT3.get exForeign = exT3.get exStale ∧
    exT3.get exForeign = none ∧
    exT3.get_mut exForeign = exT3.get_mut exStale ∧
    exT3.remove exForeign .DropChildren 9 = exT3.remove exStale .DropChildren 9 ∧
    exT3.remove exStale .DropChildren 9 = some (none, exT3) := by
  refine ⟨by decide, by decide, by decide, by decide, by decide, by decide, by decide, by decide⟩

/-- Claim C5, amended: the tree-identity layer (`CoreTree::get`/`get_mut`)
reports a tree-identifier mismatch as `WrongTree`, a condition distinct from
the `BadNodeId` it reports for a stale or unknown handle; the distinction
exists at that layer only — the public `Tree` operations discard it
(see the counterexample). -/
theorem identity_layer_error_distinction (c : CoreTree Nat) (id : NodeId) :
    (id.tree_id ≠ c.id →
      c.get id = .error .WrongTree ∧ c.get_mut id = .error .WrongTree) ∧
    (id.tree_id = c.id → c.slab.get id.index = none →
      c.get id = .error .BadNodeId ∧ c.get_mut id = .error .BadNodeId) ∧
    NodeIdError.WrongTree ≠ NodeIdError.BadNodeId := by
  refine ⟨fun hne => ⟨?_, ?_⟩, fun heq hnone => ⟨?_, ?_⟩, by decide⟩
  · simp [CoreTree.get, CoreTree.validate_node_id, hne, Bind.bind, Except.bind]
  · simp [CoreTree.get_mut, CoreTree.validate_node_id, hne, Bind.bind, Except.bind]
  · simp [CoreTree.get, CoreTree.validate_node_id, heq, hnone, Bind.bind, Except.bind]
  · simp [CoreTree.get_mut, CoreTree.validate_node_id, heq, hnone, Bind.bind, Except.bind]

/-- Witness for the amended C5: on `exT3`'s identity layer, the foreign id
yields `WrongTree` and the stale id yields `BadNodeId`. -/
theorem identity_layer_error_distinction_witness :
    exForeign.tree_id ≠ exT3.core_tree.id ∧
    exT3.core_tree.get exForeign = .error .WrongTree ∧
    exStale.tree_id = exT3.core_tree.id ∧
    exT3.core_tree.slab.get exStale.index = none ∧
    exT3.core_tree.get exStale = .error .BadNodeId :=
  ⟨by decide, ((identity_layer_error_distinction exT3.core_tree exForeign).1 (by decide)).1,
   by decide, by decide,
   ((identity_layer_error_distinction exT3.core_tree exStale).2.1 (by decide) (by decide)).1⟩

/-! ### Claim C10: reordering a parentless node -/

/-- Claim C10.  For every live node without a parent (the root, or a node
orphaned by `OrphanChildren`), `make_first_sibling` and `make_last_sibling`
return `false` and leave the tree completely unchanged. -/
theorem make_sibling_without_parent_noop (t : Tree Nat) (n : NodeId) (nd : Node Nat)
    (hlive : t.get_node n = some nd) (hnoparent : nd.relatives.parent = none) :
    NodeMut.make_first_sibling t n = some (false, t) ∧
    NodeMut.make_last_sibling t n = some (false, t) := by
  constructor
  · simp [NodeMut.make_first_sibling, hlive, hnoparent]
  · simp [NodeMut.make_last_sibling, hlive, hnoparent]

/-- Witness for C10 on an orphaned child that still carries a sibling
link. -/
theorem make_sibling_without_parent_noop_witness :
    (do
      let t ← Tree.build 0 (some (1 : Nat))
      let p2 ← NodeMut.append t ⟨0, 0, 0⟩ 2
      let p3 ← NodeMut.append p2.2 ⟨0, 0, 0⟩ 3
      p3.2.remove ⟨0, 0, 0⟩ .OrphanChildren 9) = some (some 1, exOrphanT) ∧
    exOrphanT.get_node ⟨0, 1, 0⟩ = some exOrphanN2 ∧
    exOrphanN2.relatives.parent = none ∧
    exOrphanN2.relatives.next_sibling = some ⟨0, 2, 0⟩ ∧
    NodeMut.make_first_sibling exOrphanT ⟨0, 1, 0⟩ = some (false, exOrphanT) :=
  ⟨by decide, by decide, by decide, by decide,
   (make_sibling_without_parent_noop exOrphanT ⟨0, 1, 0⟩ exOrphanN2 (by decide) (by decide)).1⟩

/-! ### Claim C4: `remove_first` / `remove_last` (corrected) -/

/-- Counterexample to claim C4 as stated.  On the chain `1 → 2 → 3`,
`remove_first(DropChildren)` on the root frees not only the first child `2`
but also its descendant `3`: the removal is cascading and does not free
"just that one node". -/
theorem remove_first_drops_descendants :
    (do
      let t ← Tree.build 0 (some (1 : Nat))
      let p2 ← NodeMut.append t ⟨0, 0, 0⟩ 2
      let p3 ← NodeMut.append p2.2 p2.1 3
      some p3.2) = some exChainT ∧
    exChainT.get ⟨0, 2, 0⟩ = some ⟨0, 2, 0⟩ ∧
    NodeMut.remove_first exChainT ⟨0, 0, 0⟩ .DropChildren 9 = some (some 2, exChainT2) ∧
    exChainT2.get ⟨0, 2, 0⟩ = none := by
  refine ⟨by decide, by decide, by decide, by decide⟩

/-- Claim C4, amended: `remove_first` (resp. `remove_last`) removes the
node's current first (resp. last) child by delegating to the tree-level
removal with the caller-chosen behavior — so the child is unlinked with its
neighbor reconnected into the vacated end, and the child's own descendants
are dropped under `DropChildren` or left allocated under `OrphanChildren`;
with no child present nothing changes and absence is returned. -/
theorem remove_first_last_delegate (t : Tree Nat) (n : NodeId) (rel : Relatives)
    (b : RemoveBehavior) (fuel : Nat)
    (hrel : t.get_node_relatives n = some rel) :
    (rel.first_child = none → NodeMut.remove_first t n b fuel = some (none, t)) ∧
    (∀ c, rel.first_child = some c → NodeMut.remove_first t n b fuel = t.remove c b fuel) ∧
    (rel.last_child = none → NodeMut.remove_last t n b fuel = some (none, t)) ∧
    (∀ c, rel.last_child = some c → NodeMut.remove_last t n b fuel = t.remove c b fuel) := by
  refine ⟨fun h => ?_, fun c h => ?_, fun h => ?_, fun c h => ?_⟩
  · simp [NodeMut.remove_first, hrel, h]
  · simp [NodeMut.remove_first, hrel, h]
  · simp [NodeMut.remove_last, hrel, h]
  · simp [NodeMut.remove_last, hrel, h]

/-- Witness for the amended C4 on the chain tree. -/
theorem remove_first_last_delegate_witness :
    exChainT.get_node_relatives ⟨0, 0, 0⟩ = some exChainRootRel ∧
    exChainRootRel.first_child = some ⟨0, 1, 0⟩ ∧
    NodeMut.remove_first exChainT ⟨0, 0, 0⟩ .DropChildren 9 =
      exChainT.remove ⟨0, 1, 0⟩ .DropChildren 9 :=
  ⟨by decide, by decide,
   (remove_first_last_delegate exChainT ⟨0, 0, 0⟩ exChainRootRel .DropChildren 9
     (by decide)).2.1 ⟨0, 1, 0⟩ (by decide)⟩

/-! ### Claim C8: the concrete traversal scenario -/

/-- Claim C8.  Building the spec's tree (root `0`; `1`, `5`, `9` under the
root; `2` under `1`; `3`, `4` under `2`; `6` under `5`; `7` under `6`; `8`
under `5`), the pre-order traversal yields payloads `[0,…,9]` and the
level-order traversal yields `[0,1,5,9,2,6,8,3,4,7]` — breadth-first,
left-to-right within each depth. -/
theorem concrete_traversal_scenario :
    (do
      let t ← Tree.build 0 (some (0 : Nat))
      let r : NodeId := ⟨0, 0, 0⟩
      let p1 ← NodeMut.append t r 1
      let p5 ← NodeMut.append p1.2 r 5
      let p9 ← NodeMut.append p5.2 r 9
      let p2 ← NodeMut.append p9.2 p1.1 2
      let p3 ← NodeMut.append p2.2 p2.1 3
      let p4 ← NodeMut.append p3.2 p2.1 4
      let p6 ← NodeMut.append p4.2 p5.1 6
      let p7 ← NodeMut.append p6.2 p6.1 7
      let p8 ← NodeMut.append p7.2 p5.1 8
      let t := p8.2
      let pre ← PreOrder.collect t 99 (PreOrder.new t r)
      let st ← LevelOrder.new t r
      let lvl ← LevelOrder.collect t 99 st
      let preData ← pre.mapM fun id => (t.get_node id).map Node.data
      let lvlData ← lvl.mapM fun id => (t.get_node id).map Node.data
      some (preData, lvlData)) =
    some ([0, 1, 2, 3, 4, 5, 6, 7, 8, 9], [0, 1, 5, 9, 2, 6, 8, 3, 4, 7]) := by
  decide

/-! ### Claim C9: the ancestors iterator (corrected) -/

/-- The exact chain of successive parents starting at `x`'s parent and
ending at the ancestor that has no parent. -/
inductive ParentChain (t : Tree Nat) : NodeId → List NodeId → Prop where
  | stop (x : NodeId) (nd : Node Nat) :
      t.get_node x = some nd → nd.relatives.parent = none → ParentChain t x []
  | step (x : NodeId) (nd : Node Nat) (p : NodeId) (l : List NodeId) :
      t.get_node x = some nd → nd.relatives.parent = some p →
      ParentChain t p l → ParentChain t x (p :: l)

/-- Counterexample to claim C9 as stated.  On the chain `1 → 2 → 3`, the
ancestors iterator of the leaf `3` yields the ids of `[2, 1]`: the overall
root (`1`) IS yielded as the last element, so the output is neither the
chain "leaf to root exclusive" `[3's id, 2's id]` nor the proper chain
below the root `[2's id]`. -/
theorem ancestors_yield_includes_root :
    Ancestors.collect exChainT 9 (some ⟨0, 2, 0⟩) = some [⟨0, 1, 0⟩, ⟨0, 0, 0⟩] ∧
    exChainT.root_id = some ⟨0, 0, 0⟩ ∧
    Ancestors.collect exChainT 9 (some ⟨0, 2, 0⟩) ≠ some [⟨0, 1, 0⟩] ∧
    Ancestors.collect exChainT 9 (some ⟨0, 2, 0⟩) ≠ some [⟨0, 2, 0⟩, ⟨0, 1, 0⟩] := by
  refine ⟨by decide, by decide, by decide, by decide⟩

/-- Claim C9, amended: for every node (in particular every leaf), when the
ancestors iterator runs to exhaustion its output is exactly the chain of
successive parents — the node's parent, grandparent, and so on, in that
order, up to and including the parentless overall root — terminating at the
node that has no parent. -/
theorem ancestors_exact_parent_chain (t : Tree Nat) (fuel : Nat) (x : NodeId)
    (l : List NodeId) (hc : Ancestors.collect t fuel (some x) = some l) :
    ParentChain t x l := by
  induction fuel generalizing x l with
  | zero => exact absurd hc (by simp [Ancestors.collect])
  | succ fuel ih =>
    rcases hnode : t.get_node_relatives x with _ | rel
    · simp only [Ancestors.collect, Ancestors.next, hnode] at hc
      exact Option.noConfusion hc
    · obtain ⟨nd, hnd, hrel⟩ : ∃ nd, t.get_node x = some nd ∧ nd.relatives = rel := by
        rcases hx : t.get_node x with _ | nd
        · rw [Tree.get_node_relatives, hx] at hnode; exact absurd hnode (by simp)
        · rw [Tree.get_node_relatives, hx] at hnode
          simp only [Option.map_some', Option.some_inj] at hnode
          exact ⟨nd, rfl, hnode⟩
      rcases hp : rel.parent with _ | pid
      · simp only [Ancestors.collect, Ancestors.next, hnode, hp, Option.some_inj] at hc
        subst hc
        exact ParentChain.stop x nd hnd (by rw [hrel, hp])
      · simp only [Ancestors.collect, Ancestors.next, hnode, hp] at hc
        rcases htail : Ancestors.collect t fuel (some pid) with _ | l2
        · rw [htail] at hc; exact absurd hc (by simp)
        · rw [htail] at hc
          simp only [Option.map_some', Option.some_inj] at hc
          subst hc
          exact ParentChain.step x nd pid l2 hnd (by rw [hrel, hp]) (ih pid l2 htail)

/-- Witness for the amended C9 on the chain `1 → 2 → 3`. -/
theorem ancestors_exact_parent_chain_witness :
    Ancestors.collect exChainT 9 (some ⟨0, 2, 0⟩) = some [⟨0, 1, 0⟩, ⟨0, 0, 0⟩] ∧
    ParentChain exChainT ⟨0, 2, 0⟩ [⟨0, 1, 0⟩, ⟨0, 0, 0⟩] :=
  ⟨by decide, ancestors_exact_parent_chain exChainT 9 ⟨0, 2, 0⟩ _ (by decide)⟩

/-! ### Pointwise characterizations of the structural primitives -/

theorem Tree.get_node_eq (t : Tree Nat) (d : NodeId) :
    t.get_node d =
      if d.tree_id = t.core_tree.id then
        match t.core_tree.slab.data.get? d.index.index with
        | some (.filled nd g) => if d.index.generation = g then some nd else none
        | _ => none
      else none := by
  by_cases htid : d.tree_id = t.core_tree.id
  · rw [if_pos htid]
    rcases hslot : t.core_tree.slab.data.get? d.index.index with _ | slot
    all_goals try rcases slot with ⟨nf⟩ | ⟨nd, g⟩
    all_goals rw [List.get?_eq_getElem?] at hslot
    · simp [Tree.get_node, CoreTree.get, CoreTree.validate_node_id, htid, Bind.bind,
        Except.bind, Slab.get, hslot, Except.toOption]
    · simp [Tree.get_node, CoreTree.get, CoreTree.validate_node_id, htid, Bind.bind,
        Except.bind, Slab.get, hslot, Except.toOption]
    · by_cases hg : d.index.generation = g
      · simp [Tree.get_node, CoreTree.get, CoreTree.validate_node_id, htid, Bind.bind,
          Except.bind, Slab.get, hslot, hg, Except.toOption, Pure.pure, Except.pure]
      · simp [Tree.get_node, CoreTree.get, CoreTree.validate_node_id, htid, Bind.bind,
          Except.bind, Slab.get, hslot, hg, Except.toOption, Pure.pure, Except.pure]
  · rw [if_neg htid]
    simp [Tree.get_node, CoreTree.get, CoreTree.validate_node_id, htid, Bind.bind,
      Except.bind, Except.toOption]

theorem Tree.get_eq_get_node (t : Tree Nat) (d : NodeId) :
    t.get d = (t.get_node d).map fun _ => d := by
  simp [Tree.get, Tree.get_node]

theorem Tree.get_mut_eq_get_node (t : Tree Nat) (d : NodeId) :
    t.get_mut d = (t.get_node d).map fun _ => d := by
  simp [Tree.get_mut, Tree.get_node, CoreTree.get, CoreTree.get_mut]

theorem NodeId.eq_of_parts {a b : NodeId} (h1 : a.tree_id = b.tree_id)
    (h2 : a.index.index = b.index.index) (h3 : a.index.generation = b.index.generation) :
    a = b := by
  rcases a with ⟨t1, ⟨i1, g1⟩⟩
  rcases b with ⟨t2, ⟨i2, g2⟩⟩
  simp only at h1 h2 h3
  simp [h1, h2, h3]

theorem Tree.get_node_some {t : Tree Nat} {d : NodeId} {nd : Node Nat}
    (h : t.get_node d = some nd) :
    d.tree_id = t.core_tree.id ∧
    t.core_tree.slab.data.get? d.index.index = some (.filled nd d.index.generation) := by
  rw [Tree.get_node_eq] at h
  by_cases htid : d.tree_id = t.core_tree.id
  · rw [if_pos htid] at h
    rcases hslot : t.core_tree.slab.data.get? d.index.index with _ | slot
    · simp only [hslot] at h
      exact Option.noConfusion h
    · rcases slot with ⟨nf⟩ | ⟨nd0, g⟩
      · simp only [hslot] at h
        exact Option.noConfusion h
      · simp only [hslot] at h
        by_cases hg : d.index.generation = g
        · rw [if_pos hg] at h
          simp only [Option.some_inj] at h
          subst h
          exact ⟨htid, by rw [hg]⟩
        · rw [if_neg hg] at h
          exact absurd h (by simp)
  · rw [if_neg htid] at h
    exact absurd h (by simp)

/-- What a successful `modify_node` (the write through `get_node_mut`) does,
observed through `get_node`: the target's record is transformed, every other
id resolves exactly as before, and nothing else changes. -/
theorem Tree.modify_node_get {t : Tree Nat} {id : NodeId} {f : Node Nat → Node Nat}
    {t2 : Tree Nat} (h : t.modify_node id f = some t2) :
    ∃ nd, t.get_node id = some nd ∧
      t2.get_node id = some (f nd) ∧
      (∀ d, d ≠ id → t2.get_node d = t.get_node d) ∧
      t2.root_id = t.root_id ∧ t2.core_tree.id = t.core_tree.id ∧
      t2.core_tree.slab.generation = t.core_tree.slab.generation ∧
      t2.core_tree.slab.first_free_slot = t.core_tree.slab.first_free_slot := by
  rcases hm : (t.core_tree.get_mut id).toOption with _ | nd
  · rw [Tree.modify_node, hm] at h
    exact Option.noConfusion h
  · rw [Tree.modify_node, hm] at h
    simp only [Option.some_inj] at h
    have hnd : t.get_node id = some nd := hm
    obtain ⟨htid, hstore⟩ := Tree.get_node_some hnd
    have hlt : id.index.index < t.core_tree.slab.data.length := by
      by_contra hge
      rw [List.get?_eq_getElem?, List.getElem?_eq_none (by omega)] at hstore
      exact absurd hstore (by simp)
    refine ⟨nd, hnd, ?_, ?_, ?_, ?_, ?_, ?_⟩
    · rw [Tree.get_node_eq, ← h]
      simp only
      rw [if_pos htid, List.get?_eq_getElem?, List.getElem?_set_self hlt]
      simp
    · intro d hd
      rw [Tree.get_node_eq, Tree.get_node_eq, ← h]
      simp only
      by_cases htd : d.tree_id = t.core_tree.id
      · rw [if_pos htd, if_pos htd]
        by_cases hidx : d.index.index = id.index.index
        · have hgen : d.index.generation ≠ id.index.generation := by
            intro he
            exact hd (NodeId.eq_of_parts (by rw [htd, htid]) hidx he)
          rw [hidx, List.get?_eq_getElem?, List.getElem?_set_self hlt]
          rw [List.get?_eq_getElem?] at hstore
          rw [List.get?_eq_getElem?, hstore]
          simp [hgen]
        · rw [List.get?_eq_getElem?, List.getElem?_set_ne (fun he => hidx he.symm),
            ← List.get?_eq_getElem?]
      · rw [if_neg htd, if_neg htd]
    · rw [← h]
    · rw [← h]
    · rw [← h]
    · rw [← h]

/-- What a successful `CoreTree::insert` does, observed through `get_node`:
the fresh id resolves to the fresh record, was absent before, and every
other id resolves exactly as before. -/
theorem Tree.core_insert_get {t : Tree Nat} {v : Nat} {id : NodeId} {core2 : CoreTree Nat}
    (h : t.core_tree.insert v = some (id, core2)) :
    id.tree_id = t.core_tree.id ∧ core2.id = t.core_tree.id ∧
    t.get_node id = none ∧
    ({ t with core_tree := core2 } : Tree Nat).get_node id = some (Node.new v) ∧
    (∀ d, d ≠ id → ({ t with core_tree := core2 } : Tree Nat).get_node d = t.get_node d) := by
  rcases hi : t.core_tree.slab.insert (Node.new v) with _ | ⟨key, slab2⟩
  · rw [CoreTree.insert, hi] at h
    exact Option.noConfusion h
  · simp only [CoreTree.insert, hi, Option.map_some', Option.some_inj, Prod.mk.injEq] at h
    obtain ⟨hid, hc2⟩ := h
    obtain ⟨hkg, hgen, hslot, hother, hold⟩ := Slab.insert_eq hi
    have hidt : id.tree_id = t.core_tree.id := by rw [← hid]
    have hidx : id.index = key := by rw [← hid]
    refine ⟨hidt, by rw [← hc2], ?_, ?_, ?_⟩
    · rw [Tree.get_node_eq, if_pos hidt, hidx]
      rcases hold with hnone | ⟨nf, hnf⟩
      · rw [List.get?_eq_getElem?] at hnone
        simp [hnone]
      · rw [List.get?_eq_getElem?] at hnf
        simp [hnf]
    · rw [Tree.get_node_eq]
      simp only [← hc2]
      rw [if_pos hidt, hidx, hslot]
      simp [hkg]
    · intro d hd
      rw [Tree.get_node_eq, Tree.get_node_eq]
      simp only [← hc2]
      by_cases htd : d.tree_id = t.core_tree.id
      · rw [if_pos htd, if_pos htd]
        by_cases hix : d.index.index = key.index
        · have hgne : d.index.generation ≠ key.generation := by
            intro he
            exact hd (NodeId.eq_of_parts (by rw [htd, hidt]) (by rw [hix, hidx])
              (by rw [he, hidx]))
          have hgne2 : d.index.generation ≠ t.core_tree.slab.generation := by
            rw [← hkg]; exact hgne
          rw [hix, hslot]
          rcases hold with hnone | ⟨nf, hnf⟩
          · rw [hnone]
            simp [hgne2]
          · rw [hnf]
            simp [hgne2]

        · rw [hother d.index.index hix]
      · rw [if_neg htd, if_neg htd]

/-- What a successful `CoreTree::remove` does, observed through `get_node`:
the payload of the slot's occupant is returned, every handle for that slot
position resolves to absence, and every other id resolves exactly as
before. -/
theorem Tree.core_remove_get {t : Tree Nat} {id : NodeId} {x : Nat} {core2 : CoreTree Nat}
    (h : t.core_tree.remove id = some (x, core2)) :
    core2.id = t.core_tree.id ∧
    (∃ nd, t.core_tree.slab.data.get? id.index.index =
        some (.filled nd id.index.generation) ∧ x = nd.data) ∧
    (∀ d, ({ t with core_tree := core2 } : Tree Nat).get_node d =
      if d.index.index = id.index.index then none else t.get_node d) := by
  rcases hrem : t.core_tree.slab.remove id.index with ⟨r, slab2⟩
  rcases r with _ | node
  · simp only [CoreTree.remove, hrem] at h
    exact Option.noConfusion h
  · simp only [CoreTree.remove, hrem, Option.some_inj, Prod.mk.injEq] at h
    obtain ⟨hx, hc2⟩ := h
    rcases Slab.remove_eq hrem with ⟨hnone, _, _⟩ | ⟨nd, hr, hslot, hs2⟩
    · exact absurd hnone (by simp)
    · injection hr with hr2
      subst hr2
      have hlt : id.index.index < t.core_tree.slab.data.length := by
        by_contra hge
        rw [List.get?_eq_getElem?, List.getElem?_eq_none (by omega)] at hslot
        exact absurd hslot (by simp)
      refine ⟨by rw [← hc2], ⟨node, hslot, hx.symm⟩, ?_⟩
      intro d
      rw [Tree.get_node_eq, Tree.get_node_eq]
      simp only [← hc2, hs2]
      by_cases hix : d.index.index = id.index.index
      · rw [hix]
        rw [if_pos rfl]
        by_cases htd : d.tree_id = t.core_tree.id
        · rw [if_pos htd]
          rw [List.get?_eq_getElem?, List.getElem?_set_self hlt]
        · rw [if_neg htd]
      · rw [if_neg hix]
        by_cases htd : d.tree_id = t.core_tree.id
        · rw [if_pos htd, if_pos htd]
          rw [List.get?_eq_getElem?, List.getElem?_set_ne (fun he => hix he.symm),
            ← List.get?_eq_getElem?]
        · rw [if_neg htd, if_neg htd]

/-! ### Support for the orphan-removal characterization (claim C7) -/

/-- Clearing a node's parent link (what `set_parent(id, None)` writes). -/
def clearParent (nd : Node Nat) : Node Nat :=
  { nd with relatives := { nd.relatives with parent := none } }

theorem clearParent_idem (nd : Node Nat) : clearParent (clearParent nd) = clearParent nd := rfl

/-- Two distinct live ids of the same tree occupy distinct slots. -/
theorem Tree.live_ne_slot {t : Tree Nat} {a b : NodeId} {na nb : Node Nat}
    (ha : t.get_node a = some na) (hb : t.get_node b = some nb) (hne : a ≠ b) :
    a.index.index ≠ b.index.index := by
  obtain ⟨hta, hsa⟩ := Tree.get_node_some ha
  obtain ⟨htb, hsb⟩ := Tree.get_node_some hb
  intro hix
  rw [hix, hsb] at hsa
  simp only [Option.some_inj, Slot.filled.injEq] at hsa
  exact hne (NodeId.eq_of_parts (by rw [hta, htb]) hix hsa.2.symm)

/-- A sibling walk is insensitive to changes outside the ids it yields. -/
theorem NextSiblings.collect_congr {t t2 : Tree Nat} :
    ∀ {fuel : Nat} {s : Option NodeId} {l : List NodeId},
    NextSiblings.collect t fuel s = some l →
    (∀ c ∈ l, t2.get_node c = t.get_node c) →
    NextSiblings.collect t2 fuel s = some l := by
  intro fuel
  induction fuel with
  | zero => intro s l h _; exact absurd h (by simp [NextSiblings.collect])
  | succ fuel ih =>
    intro s l h hag
    rcases s with _ | id
    · simpa [NextSiblings.collect, NextSiblings.next] using h
    · rcases hrel : t.get_node_relatives id with _ | rel
      · simp only [NextSiblings.collect, NextSiblings.next, hrel] at h
        exact Option.noConfusion h
      · simp only [NextSiblings.collect, NextSiblings.next, hrel] at h
        rcases htl : NextSiblings.collect t fuel rel.next_sibling with _ | l2
        · rw [htl] at h; exact absurd h (by simp)
        · rw [htl] at h
          simp only [Option.map_some', Option.some_inj] at h
          subst h
          have hid : t2.get_node id = t.get_node id := hag id (by simp)
          have hrel2 : t2.get_node_relatives id = some rel := by
            rw [Tree.get_node_relatives] at hrel ⊢
            rw [hid]
            exact hrel
          have htl2 := ih htl (fun c hc => hag c (by simp [hc]))
          simp [NextSiblings.collect, NextSiblings.next, hrel2, htl2]

/-- Every id a successful sibling walk yields is live. -/
theorem NextSiblings.collect_live {t : Tree Nat} :
    ∀ {fuel : Nat} {s : Option NodeId} {l : List NodeId},
    NextSiblings.collect t fuel s = some l →
    ∀ c ∈ l, ∃ nc, t.get_node c = some nc := by
  intro fuel
  induction fuel with
  | zero => intro s l h; exact absurd h (by simp [NextSiblings.collect])
  | succ fuel ih =>
    intro s l h c hc
    rcases s with _ | id
    · simp [NextSiblings.collect, NextSiblings.next] at h
      subst h
      exact absurd hc (by simp)
    · rcases hrel : t.get_node_relatives id with _ | rel
      · simp only [NextSiblings.collect, NextSiblings.next, hrel] at h
        exact Option.noConfusion h
      · simp only [NextSiblings.collect, NextSiblings.next, hrel] at h
        rcases htl : NextSiblings.collect t fuel rel.next_sibling with _ | l2
        · rw [htl] at h; exact absurd h (by simp)
        · rw [htl] at h
          simp only [Option.map_some', Option.some_inj] at h
          subst h
          rcases List.mem_cons.mp hc with hcid | hctl
          · subst hcid
            rw [Tree.get_node_relatives] at hrel
            rcases hn : t.get_node c with _ | nc
            · rw [hn] at hrel; exact absurd hrel (by simp)
            · exact ⟨nc, rfl⟩
          · exact ih htl c hctl

/-- Folding `set_parent(·, None)` over a list clears exactly those parents,
touching nothing else. -/
theorem Tree.foldl_clear_parent {l : List NodeId} :
    ∀ {t t2 : Tree Nat},
    l.foldlM (fun t id => t.set_parent id none) t = some t2 →
    (∀ d, t2.get_node d =
      if d ∈ l then (t.get_node d).map clearParent else t.get_node d) ∧
    t2.root_id = t.root_id := by
  induction l with
  | nil =>
    intro t t2 h
    simp only [List.foldlM_nil] at h
    cases h
    exact ⟨fun d => by simp, rfl⟩
  | cons a l ih =>
    intro t t2 h
    rw [List.foldlM_cons] at h
    rcases ha : t.set_parent a none with _ | ta
    · rw [ha] at h; exact Option.noConfusion h
    · rw [ha] at h
      simp only [Option.bind_eq_bind, Option.some_bind] at h
      obtain ⟨nd, hnd, hset, hoth, hroot, -, -, -⟩ := Tree.modify_node_get ha
      have hset2 : ta.get_node a = some (clearParent nd) := hset
      obtain ⟨hall, hroot2⟩ := ih h
      constructor
      · intro d
        rw [hall d]
        by_cases hdl : d ∈ l
        · rw [if_pos hdl, if_pos (by simp [hdl])]
          by_cases hda : d = a
          · subst hda
            rw [hset2, hnd]
            simp [clearParent_idem]
          · rw [hoth d hda]
        · rw [if_neg hdl]
          by_cases hda : d = a
          · subst hda
            rw [if_pos (by simp), hset2, hnd]
            simp
          · rw [if_neg (by simp [hda, hdl]), hoth d hda]
      · rw [hroot2, hroot]

/-- The sibling-splice of a removal touches only the removed node's parent,
previous sibling and next sibling. -/
def SpliceAgree (node : Node Nat) (t u : Tree Nat) : Prop :=
  ∀ d, node.relatives.parent ≠ some d → node.relatives.prev_sibling ≠ some d →
    node.relatives.next_sibling ≠ some d → u.get_node d = t.get_node d

theorem SpliceAgree.rfl (node : Node Nat) (t : Tree Nat) : SpliceAgree node t t :=
  fun _ _ _ _ => Eq.refl _

theorem SpliceAgree.comp {node : Node Nat} {t u v : Tree Nat} {a : NodeId}
    {f : Node Nat → Node Nat} (h1 : SpliceAgree node t u) (h2 : u.modify_node a f = some v)
    (ha : node.relatives.parent = some a ∨ node.relatives.prev_sibling = some a ∨
      node.relatives.next_sibling = some a) :
    SpliceAgree node t v := by
  intro d hp hpv hnx
  obtain ⟨nd, -, -, hoth, -, -, -, -⟩ := Tree.modify_node_get h2
  have hda : d ≠ a := by
    intro he
    subst he
    rcases ha with h | h | h
    · exact hp h
    · exact hpv h
    · exact hnx h
  rw [hoth d hda]
  exact h1 d hp hpv hnx

/-- `Tree::orphan_children`, characterized pointwise. -/
theorem Tree.orphan_children_char {t3 : Tree Nat} {n : NodeId} {fuel : Nat} {t4 : Tree Nat}
    (horph : t3.orphan_children n fuel = some t4) :
    ∃ rel kids, t3.get_node_relatives n = some rel ∧
      NextSiblings.collect t3 fuel rel.first_child = some kids ∧
      (∀ d, t4.get_node d =
        if d ∈ kids then (t3.get_node d).map clearParent else t3.get_node d) ∧
      t4.root_id = t3.root_id := by
  simp [Tree.orphan_children] at horph
  rw [Option.bind_eq_some] at horph
  obtain ⟨-, -, horph⟩ := horph
  rw [Option.bind_eq_some] at horph
  obtain ⟨rel, hrel, horph⟩ := horph
  rw [Option.bind_eq_some] at horph
  obtain ⟨kids, hkids, horph⟩ := horph
  obtain ⟨hall, hroot⟩ := Tree.foldl_clear_parent horph
  exact ⟨rel, kids, hrel, hkids, hall, hroot⟩

/-- Decomposition of a successful `Tree::remove(·, OrphanChildren)`: a
splice that touches only the parent and the two adjacent siblings, the
orphaning pass, the root fix-up and the final slot removal. -/
theorem Tree.remove_orphan_decompose {t : Tree Nat} {n : NodeId} {node : Node Nat}
    {fuel : Nat} {res : Option Nat} {t5 : Tree Nat}
    (hn : t.get_node n = some node)
    (hrem : t.remove n .OrphanChildren fuel = some (res, t5)) :
    ∃ t3 t4 t4adj data core,
      SpliceAgree node t t3 ∧
      t3.orphan_children n fuel = some t4 ∧
      (t4adj : Tree Nat).core_tree = t4.core_tree ∧
      t4adj.core_tree.remove n = some (data, core) ∧
      res = some data ∧
      t5 = { root_id := t4adj.root_id, core_tree := core } := by
  simp only [Tree.remove, hn] at hrem
  rcases hp : node.relatives.parent with _ | p
  · have hfl : t.is_node_first_last_child n = (false, false) := by
      simp [Tree.is_node_first_last_child, hn, hp]
    rcases hprev : node.relatives.prev_sibling with _ | pv
    · rcases hnext : node.relatives.next_sibling with _ | nx
      · simp [hfl, hp, hprev, hnext] at hrem
        rw [Option.bind_eq_some] at hrem
        obtain ⟨t4, horph, hrem⟩ := hrem
        rw [Option.bind_eq_some] at hrem
        obtain ⟨pr, hrm, hfin⟩ := hrem
        simp only [Option.some_inj, Prod.mk.injEq] at hfin
        exact ⟨t, t4, _, pr.1, pr.2, SpliceAgree.rfl node t, horph,
          by split <;> rfl, hrm, hfin.1.symm, hfin.2.symm⟩
      · simp [hfl, hp, hprev, hnext, Tree.set_prev_sibling] at hrem
        rw [Option.bind_eq_some] at hrem
        obtain ⟨y1, h1, hrem⟩ := hrem
        rw [Option.bind_eq_some] at hrem
        obtain ⟨t4, horph, hrem⟩ := hrem
        rw [Option.bind_eq_some] at hrem
        obtain ⟨pr, hrm, hfin⟩ := hrem
        simp only [Option.some_inj, Prod.mk.injEq] at hfin
        exact ⟨y1, t4, _, pr.1, pr.2,
          (SpliceAgree.rfl node t).comp h1 (Or.inr (Or.inr hnext)), horph,
          by split <;> rfl, hrm, hfin.1.symm, hfin.2.symm⟩
    · rcases hnext : node.relatives.next_sibling with _ | nx
      · simp [hfl, hp, hprev, hnext, Tree.set_next_sibling] at hrem
        rw [Option.bind_eq_some] at hrem
        obtain ⟨y1, h1, hrem⟩ := hrem
        rw [Option.bind_eq_some] at hrem
        obtain ⟨t4, horph, hrem⟩ := hrem
        rw [Option.bind_eq_some] at hrem
        obtain ⟨pr, hrm, hfin⟩ := hrem
        simp only [Option.some_inj, Prod.mk.injEq] at hfin
        exact ⟨y1, t4, _, pr.1, pr.2,
          (SpliceAgree.rfl node t).comp h1 (Or.inr (Or.inl hprev)), horph,
          by split <;> rfl, hrm, hfin.1.symm, hfin.2.symm⟩
      · simp [hfl, hp, hprev, hnext, Tree.set_next_sibling,
          Tree.set_prev_sibling] at hrem
        rw [Option.bind_eq_some] at hrem
        obtain ⟨y1, h1, hrem⟩ := hrem
        rw [Option.bind_eq_some] at hrem
        obtain ⟨y2, h2, hrem⟩ := hrem
        rw [Option.bind_eq_some] at hrem
        obtain ⟨t4, horph, hrem⟩ := hrem
        rw [Option.bind_eq_some] at hrem
        obtain ⟨pr, hrm, hfin⟩ := hrem
        simp only [Option.some_inj, Prod.mk.injEq] at hfin
        exact ⟨y2, t4, _, pr.1, pr.2,
          ((SpliceAgree.rfl node t).comp h1 (Or.inr (Or.inl hprev))).comp h2
            (Or.inr (Or.inr hnext)), horph,
          by split <;> rfl, hrm, hfin.1.symm, hfin.2.symm⟩
  · by_cases hf1 : (t.is_node_first_last_child n).1 = true
    · by_cases hf2 : (t.is_node_first_last_child n).2 = true
      · rcases hprev : node.relatives.prev_sibling with _ | pv
        · rcases hnext : node.relatives.next_sibling with _ | nx
          · simp [hf1, hf2, hp, hprev, hnext, Tree.set_first_child,
              Tree.set_last_child, Tree.set_next_sibling, Tree.set_prev_sibling] at hrem
            rw [Option.bind_eq_some] at hrem
            obtain ⟨y1, h1, hrem⟩ := hrem
            rw [Option.bind_eq_some] at hrem
            obtain ⟨y2, h2, hrem⟩ := hrem
            rw [Option.bind_eq_some] at hrem
            obtain ⟨t4, horph, hrem⟩ := hrem
            rw [Option.bind_eq_some] at hrem
            obtain ⟨pr, hrm, hfin⟩ := hrem
            simp only [Option.some_inj, Prod.mk.injEq] at hfin
            exact ⟨y2, t4, _, pr.1, pr.2,
              ((SpliceAgree.rfl node t).comp h1 (Or.inl hp)).comp h2 (Or.inl hp),
              horph, by split <;> rfl, hrm, hfin.1.symm, hfin.2.symm⟩
          · simp [hf1, hf2, hp, hprev, hnext, Tree.set_first_child,
              Tree.set_last_child, Tree.set_next_sibling, Tree.set_prev_sibling] at hrem
            rw [Option.bind_eq_some] at hrem
            obtain ⟨y1, h1, hrem⟩ := hrem
            rw [Option.bind_eq_some] at hrem
            obtain ⟨y2, h2, hrem⟩ := hrem
            rw [Option.bind_eq_some] at hrem
            obtain ⟨y3, h3, hrem⟩ := hrem
            rw [Option.bind_eq_some] at hrem
            obtain ⟨t4, horph, hrem⟩ := hrem
            rw [Option.bind_eq_some] at hrem
            obtain ⟨pr, hrm, hfin⟩ := hrem
            simp only [Option.some_inj, Prod.mk.injEq] at hfin
            exact ⟨y3, t4, _, pr.1, pr.2,
              (((SpliceAgree.rfl node t).comp h1 (Or.inl hp)).comp h2
                (Or.inl hp)).comp h3 (Or.inr (Or.inr hnext)),
              horph, by split <;> rfl, hrm, hfin.1.symm, hfin.2.symm⟩
        · rcases hnext : node.relatives.next_sibling with _ | nx
          · simp [hf1, hf2, hp, hprev, hnext, Tree.set_first_child,
              Tree.set_last_child, Tree.set_next_sibling, Tree.set_prev_sibling] at hrem
            rw [Option.bind_eq_some] at hrem
            obtain ⟨y1, h1, hrem⟩ := hrem
            rw [Option.bind_eq_some] at hrem
            obtain ⟨y2, h2, hrem⟩ := hrem
            rw [Option.bind_eq_some] at hrem
            obtain ⟨y3, h3, hrem⟩ := hrem
            rw [Option.bind_eq_some] at hrem
            obtain ⟨t4, horph, hrem⟩ := hrem
            rw [Option.bind_eq_some] at hrem
            obtain ⟨pr, hrm, hfin⟩ := hrem
            simp only [Option.some_inj, Prod.mk.injEq] at hfin
            exact ⟨y3, t4, _, pr.1, pr.2,
              (((SpliceAgree.rfl node t).comp h1 (Or.inl hp)).comp h2
                (Or.inl hp)).comp h3 (Or.inr (Or.inl hprev)),
              horph, by split <;> rfl, hrm, hfin.1.symm, hfin.2.symm⟩
          · simp [hf1, hf2, hp, hprev, hnext, Tree.set_first_child,
              Tree.set_last_child, Tree.set_next_sibling, Tree.set_prev_sibling] at hrem
            rw [Option.bind_eq_some] at hrem
            obtain ⟨y1, h1, hrem⟩ := hrem
            rw [Option.bind_eq_some] at hrem
            obtain ⟨y2, h2, hrem⟩ := hrem
            rw [Option.bind_eq_some] at hrem
            obtain ⟨y3, h3, hrem⟩ := hrem
            rw [Option.bind_eq_some] at hrem
            obtain ⟨y4, h4, hrem⟩ := hrem
            rw [Option.bind_eq_some] at hrem
            obtain ⟨t4, horph, hrem⟩ := hrem
            rw [Option.bind_eq_some] at hrem
            obtain ⟨pr, hrm, hfin⟩ := hrem
            simp only [Option.some_inj, Prod.mk.injEq] at hfin
            exact ⟨y4, t4, _, pr.1, pr.2,
              ((((SpliceAgree.rfl node t).comp h1 (Or.inl hp)).comp h2
                (Or.inl hp)).comp h3 (Or.inr (Or.inl hprev))).comp h4
                (Or.inr (Or.inr hnext)),
              horph, by split <;> rfl, hrm, hfin.1.symm, hfin.2.symm⟩
      · rcases hprev : node.relatives.prev_sibling with _ | pv
        · rcases hnext : node.relatives.next_sibling with _ | nx
          · simp [hf1, hf2, hp, hprev, hnext, Tree.set_first_child,
              Tree.set_last_child, Tree.set_next_sibling, Tree.set_prev_sibling] at hrem
            rw [Option.bind_eq_some] at hrem
            obtain ⟨y1, h1, hrem⟩ := hrem
            rw [Option.bind_eq_some] at hrem
            obtain ⟨t4, horph, hrem⟩ := hrem
            rw [Option.bind_eq_some] at hrem
            obtain ⟨pr, hrm, hfin⟩ := hrem
            simp only [Option.some_inj, Prod.mk.injEq] at hfin
            exact ⟨y1, t4, _, pr.1, pr.2,
              (SpliceAgree.rfl node t).comp h1 (Or.inl hp),
              horph, by split <;> rfl, hrm, hfin.1.symm, hfin.2.symm⟩
          · simp [hf1, hf2, hp, hprev, hnext, Tree.set_first_child,
              Tree.set_last_child, Tree.set_next_sibling, Tree.set_prev_sibling] at hrem
            rw [Option.bind_eq_some] at hrem
            obtain ⟨y1, h1, hrem⟩ := hrem
            rw [Option.bind_eq_some] at hrem
            obtain ⟨y2, h2, hrem⟩ := hrem
            rw [Option.bind_eq_some] at hrem
            obtain ⟨t4, horph, hrem⟩ := hrem
            rw [Option.bind_eq_some] at hrem
            obtain ⟨pr, hrm, hfin⟩ := hrem
            simp only [Option.some_inj, Prod.mk.injEq] at hfin
            exact ⟨y2, t4, _, pr.1, pr.2,
              ((SpliceAgree.rfl node t).comp h1 (Or.inl hp)).comp h2
                (Or.inr (Or.inr hnext)),
              horph, by split <;> rfl, hrm, hfin.1.symm, hfin.2.symm⟩
        · rcases hnext : node.relatives.next_sibling with _ | nx
          · simp [hf1, hf2, hp, hprev, hnext, Tree.set_first_child,
              Tree.set_last_child, Tree.set_next_sibling, Tree.set_prev_sibling] at hrem
            rw [Option.bind_eq_some] at hrem
            obtain ⟨y1, h1, hrem⟩ := hrem
            rw [Option.bind_eq_some] at hrem
            obtain ⟨y2, h2, hrem⟩ := hrem
            rw [Option.bind_eq_some] at hrem
            obtain ⟨t4, horph, hrem⟩ := hrem
            rw [Option.bind_eq_some] at hrem
            obtain ⟨pr, hrm, hfin⟩ := hrem
            simp only [Option.some_inj, Prod.mk.injEq] at hfin
            exact ⟨y2, t4, _, pr.1, pr.2,
              ((SpliceAgree.rfl node t).comp h1 (Or.inl hp)).comp h2
                (Or.inr (Or.inl hprev)),
              horph, by split <;> rfl, hrm, hfin.1.symm, hfin.2.symm⟩
          · simp [hf1, hf2, hp, hprev, hnext, Tree.set_first_child,
              Tree.set_last_child, Tree.set_next_sibling, Tree.set_prev_sibling] at hrem
            rw [Option.bind_eq_some] at hrem
            obtain ⟨y1, h1, hrem⟩ := hrem
            rw [Option.bind_eq_some] at hrem
            obtain ⟨y2, h2, hrem⟩ := hrem
            rw [Option.bind_eq_some] at hrem
            obtain ⟨y3, h3, hrem⟩ := hrem
            rw [Option.bind_eq_some] at hrem
            obtain ⟨t4, horph, hrem⟩ := hrem
            rw [Option.bind_eq_some] at hrem
            obtain ⟨pr, hrm, hfin⟩ := hrem
            simp only [Option.some_inj, Prod.mk.injEq] at hfin
            exact ⟨y3, t4, _, pr.1, pr.2,
              (((SpliceAgree.rfl node t).comp h1 (Or.inl hp)).comp h2
                (Or.inr (Or.inl hprev))).comp h3 (Or.inr (Or.inr hnext)),
              horph, by split <;> rfl, hrm, hfin.1.symm, hfin.2.symm⟩
    · by_cases hf2 : (t.is_node_first_last_child n).2 = true
      · rcases hprev : node.relatives.prev_sibling with _ | pv
        · rcases hnext : node.relatives.next_sibling with _ | nx
          · simp [hf1, hf2, hp, hprev, hnext, Tree.set_first_child,
              Tree.set_last_child, Tree.set_next_sibling, Tree.set_prev_sibling] at hrem
            rw [Option.bind_eq_some] at hrem
            obtain ⟨y1, h1, hrem⟩ := hrem
            rw [Option.bind_eq_some] at hrem
            obtain ⟨t4, horph, hrem⟩ := hrem
            rw [Option.bind_eq_some] at hrem
            obtain ⟨pr, hrm, hfin⟩ := hrem
            simp only [Option.some_inj, Prod.mk.injEq] at hfin
            exact ⟨y1, t4, _, pr.1, pr.2,
              (SpliceAgree.rfl node t).comp h1 (Or.inl hp),
              horph, by split <;> rfl, hrm, hfin.1.symm, hfin.2.symm⟩
          · simp [hf1, hf2, hp, hprev, hnext, Tree.set_first_child,
              Tree.set_last_child, Tree.set_next_sibling, Tree.set_prev_sibling] at hrem
            rw [Option.bind_eq_some] at hrem
            obtain ⟨y1, h1, hrem⟩ := hrem
            rw [Option.bind_eq_some] at hrem
            obtain ⟨y2, h2, hrem⟩ := hrem
            rw [Option.bind_eq_some] at hrem
            obtain ⟨t4, horph, hrem⟩ := hrem
            rw [Option.bind_eq_some] at hrem
            obtain ⟨pr, hrm, hfin⟩ := hrem
            simp only [Option.some_inj, Prod.mk.injEq] at hfin
            exact ⟨y2, t4, _, pr.1, pr.2,
              ((SpliceAgree.rfl node t).comp h1 (Or.inl hp)).comp h2
                (Or.inr (Or.inr hnext)),
              horph, by split <;> rfl, hrm, hfin.1.symm, hfin.2.symm⟩
        · rcases hnext : node.relatives.next_sibling with _ | nx
          · simp [hf1, hf2, hp, hprev, hnext, Tree.set_first_child,
              Tree.set_last_child, Tree.set_next_sibling, Tree.set_prev_sibling] at hrem
            rw [Option.bind_eq_some] at hrem
            obtain ⟨y1, h1, hrem⟩ := hrem
            rw [Option.bind_eq_some] at hrem
            obtain ⟨y2, h2, hrem⟩ := hrem
            rw [Option.bind_eq_some] at hrem
            obtain ⟨t4, horph, hrem⟩ := hrem
            rw [Option.bind_eq_some] at hrem
            obtain ⟨pr, hrm, hfin⟩ := hrem
            simp only [Option.some_inj, Prod.mk.injEq] at hfin
            exact ⟨y2, t4, _, pr.1, pr.2,
              ((SpliceAgree.rfl node t).comp h1 (Or.inl hp)).comp h2
                (Or.inr (Or.inl hprev)),
              horph, by split <;> rfl, hrm, hfin.1.symm, hfin.2.symm⟩
          · simp [hf1, hf2, hp, hprev, hnext, Tree.set_first_child,
              Tree.set_last_child, Tree.set_next_sibling, Tree.set_prev_sibling] at hrem
            rw [Option.bind_eq_some] at hrem
            obtain ⟨y1, h1, hrem⟩ := hrem
            rw [Option.bind_eq_some] at hrem
            obtain ⟨y2, h2, hrem⟩ := hrem
            rw [Option.bind_eq_some] at hrem
            obtain ⟨y3, h3, hrem⟩ := hrem
            rw [Option.bind_eq_some] at hrem
            obtain ⟨t4, horph, hrem⟩ := hrem
            rw [Option.bind_eq_some] at hrem
            obtain ⟨pr, hrm, hfin⟩ := hrem
            simp only [Option.some_inj, Prod.mk.injEq] at hfin
            exact ⟨y3, t4, _, pr.1, pr.2,
              (((SpliceAgree.rfl node t).comp h1 (Or.inl hp)).comp h2
                (Or.inr (Or.inl hprev))).comp h3 (Or.inr (Or.inr hnext)),
              horph, by split <;> rfl, hrm, hfin.1.symm, hfin.2.symm⟩
      · rcases hprev : node.relatives.prev_sibling with _ | pv
        · rcases hnext : node.relatives.next_sibling with _ | nx
          · simp [hf1, hf2, hp, hprev, hnext, Tree.set_first_child,
              Tree.set_last_child, Tree.set_next_sibling, Tree.set_prev_sibling] at hrem
            rw [Option.bind_eq_some] at hrem
            obtain ⟨t4, horph, hrem⟩ := hrem
            rw [Option.bind_eq_some] at hrem
            obtain ⟨pr, hrm, hfin⟩ := hrem
            simp only [Option.some_inj, Prod.mk.injEq] at hfin
            exact ⟨t, t4, _, pr.1, pr.2, SpliceAgree.rfl node t,
              horph, by split <;> rfl, hrm, hfin.1.symm, hfin.2.symm⟩
          · simp [hf1, hf2, hp, hprev, hnext, Tree.set_first_child,
              Tree.set_last_child, Tree.set_next_sibling, Tree.set_prev_sibling] at hrem
            rw [Option.bind_eq_some] at hrem
            obtain ⟨y1, h1, hrem⟩ := hrem
            rw [Option.bind_eq_some] at hrem
            obtain ⟨t4, horph, hrem⟩ := hrem
            rw [Option.bind_eq_some] at hrem
            obtain ⟨pr, hrm, hfin⟩ := hrem
            simp only [Option.some_inj, Prod.mk.injEq] at hfin
            exact ⟨y1, t4, _, pr.1, pr.2,
              (SpliceAgree.rfl node t).comp h1 (Or.inr (Or.inr hnext)),
              horph, by split <;> rfl, hrm, hfin.1.symm, hfin.2.symm⟩
        · rcases hnext : node.relatives.next_sibling with _ | nx
          · simp [hf1, hf2, hp, hprev, hnext, Tree.set_first_child,
              Tree.set_last_child, Tree.set_next_sibling, Tree.set_prev_sibling] at hrem
            rw [Option.bind_eq_some] at hrem
            obtain ⟨y1, h1, hrem⟩ := hrem
            rw [Option.bind_eq_some] at hrem
            obtain ⟨t4, horph, hrem⟩ := hrem
            rw [Option.bind_eq_some] at hrem
            obtain ⟨pr, hrm, hfin⟩ := hrem
            simp only [Option.some_inj, Prod.mk.injEq] at hfin
            exact ⟨y1, t4, _, pr.1, pr.2,
              (SpliceAgree.rfl node t).comp h1 (Or.inr (Or.inl hprev)),
              horph, by split <;> rfl, hrm, hfin.1.symm, hfin.2.symm⟩
          · simp [hf1, hf2, hp, hprev, hnext, Tree.set_first_child,
              Tree.set_last_child, Tree.set_next_sibling, Tree.set_prev_sibling] at hrem
            rw [Option.bind_eq_some] at hrem
            obtain ⟨y1, h1, hrem⟩ := hrem
            rw [Option.bind_eq_some] at hrem
            obtain ⟨y2, h2, hrem⟩ := hrem
            rw [Option.bind_eq_some] at hrem
            obtain ⟨t4, horph, hrem⟩ := hrem
            rw [Option.bind_eq_some] at hrem
            obtain ⟨pr, hrm, hfin⟩ := hrem
            simp only [Option.some_inj, Prod.mk.injEq] at hfin
            exact ⟨y2, t4, _, pr.1, pr.2,
              ((SpliceAgree.rfl node t).comp h1 (Or.inr (Or.inl hprev))).comp h2
                (Or.inr (Or.inr hnext)),
              horph, by split <;> rfl, hrm, hfin.1.symm, hfin.2.symm⟩

end SlabTree

